import Mathlib

/-!
Verification of the qmd-to-PreTeXt conversion scripts (PreTeXtBooks/ims).

Strings are modelled as `List Char`.  Python's `str.replace`, `str.strip`,
`str.split`, and the concrete regular expressions used by the scripts are
embedded as recursive functions on `List Char`; each script's functions are
translated one-to-one in a namespace named after the script file.
-/

set_option maxHeartbeats 1000000

abbrev Str := List Char

def chars (s : String) : Str := s.toList

/-! ### Python string primitives -/

/-- Fuel-driven scanner for Python `str.replace` (the fuel is only a structural
termination device; it is always instantiated with the string length). -/
def pyReplaceGo (p : Char) (ps rep : Str) : Nat → Str → Str
  | _, [] => []
  | 0, s => s
  | fuel + 1, c :: cs =>
    if (p :: ps).isPrefixOf (c :: cs) then
      rep ++ pyReplaceGo p ps rep fuel (cs.drop ps.length)
    else
      c :: pyReplaceGo p ps rep fuel cs

/-- Python `s.replace(pat, rep)` with non-empty pattern `p :: ps`:
replace every non-overlapping occurrence, scanning left to right and
continuing after each replacement. -/
def pyReplace (p : Char) (ps rep : Str) (s : Str) : Str :=
  pyReplaceGo p ps rep s.length s

theorem pyReplaceGo_congr (p : Char) (ps rep : Str) :
    ∀ (n m : Nat) (s : Str), s.length ≤ n → s.length ≤ m →
      pyReplaceGo p ps rep n s = pyReplaceGo p ps rep m s := by
  intro n
  induction n with
  | zero =>
    intro m s hn _
    have : s = [] := List.length_eq_zero.mp (Nat.le_zero.mp hn)
    subst this
    cases m <;> rfl
  | succ n ih =>
    intro m s hn hm
    cases s with
    | nil => cases m <;> rfl
    | cons c cs =>
      cases m with
      | zero => simp at hm
      | succ m' =>
        show (if (p :: ps).isPrefixOf (c :: cs) then _ else _) =
          (if (p :: ps).isPrefixOf (c :: cs) then _ else _)
        by_cases hp : (p :: ps).isPrefixOf (c :: cs) = true
        · rw [if_pos hp, if_pos hp]
          have hlen : (cs.drop ps.length).length ≤ n := by
            simp only [List.length_drop]
            simp only [List.length_cons] at hn
            omega
          have hlen' : (cs.drop ps.length).length ≤ m' := by
            simp only [List.length_drop]
            simp only [List.length_cons] at hm
            omega
          rw [ih _ _ hlen hlen']
        · rw [if_neg hp, if_neg hp]
          have hlen : cs.length ≤ n := by simp only [List.length_cons] at hn; omega
          have hlen' : cs.length ≤ m' := by simp only [List.length_cons] at hm; omega
          rw [ih _ _ hlen hlen']

theorem pyReplace_nil (p : Char) (ps rep : Str) : pyReplace p ps rep [] = [] := rfl

theorem pyReplace_cons (p : Char) (ps rep : Str) (c : Char) (cs : Str) :
    pyReplace p ps rep (c :: cs) =
      if (p :: ps).isPrefixOf (c :: cs) then
        rep ++ pyReplace p ps rep (cs.drop ps.length)
      else
        c :: pyReplace p ps rep cs := by
  show (if (p :: ps).isPrefixOf (c :: cs) then
      rep ++ pyReplaceGo p ps rep cs.length (cs.drop ps.length)
    else c :: pyReplaceGo p ps rep cs.length cs) = _
  by_cases hp : (p :: ps).isPrefixOf (c :: cs) = true
  · rw [if_pos hp, if_pos hp]
    unfold pyReplace
    rw [pyReplaceGo_congr p ps rep cs.length (cs.drop ps.length).length (cs.drop ps.length)
      (by simp [List.length_drop]) (Nat.le_refl _)]
  · rw [if_neg hp, if_neg hp]
    rfl

/-! ### Prefix helper lemmas (on the boolean `List.isPrefixOf`) -/

theorem isPrefixOf_append_self (l r : Str) : l.isPrefixOf (l ++ r) = true := by
  induction l with
  | nil => simp [List.isPrefixOf]
  | cons c cs ih => simp [List.isPrefixOf, ih]

theorem isPrefixOf_append_same (w a b : Str) :
    (w ++ a).isPrefixOf (w ++ b) = a.isPrefixOf b := by
  induction w with
  | nil => simp
  | cons c cs ih => simp [List.isPrefixOf, ih]

theorem isPrefixOf_nil_false (a : Char) (w : Str) : (a :: w).isPrefixOf [] = false := rfl

theorem eq_append_drop_of_isPrefixOf {w t : Str} (h : w.isPrefixOf t = true) :
    t = w ++ t.drop w.length := by
  induction w generalizing t with
  | nil => simp
  | cons c cs ih =>
    cases t with
    | nil => simp [List.isPrefixOf] at h
    | cons d ds =>
      simp only [List.isPrefixOf, Bool.and_eq_true, beq_iff_eq] at h
      obtain ⟨rfl, h2⟩ := h
      simpa using ih h2

theorem pyReplace_append_left {p : Char} {xs : Str} (ps rep ys : Str)
    (h : ∀ c ∈ xs, c ≠ p) :
    pyReplace p ps rep (xs ++ ys) = xs ++ pyReplace p ps rep ys := by
  induction xs with
  | nil => simp
  | cons c cs ih =>
    have hc : c ≠ p := h c (by simp)
    have hpre : (p :: ps).isPrefixOf (c :: (cs ++ ys)) = false := by
      simp [List.isPrefixOf]
      intro hcp
      exact absurd hcp.symm hc
    rw [List.cons_append, pyReplace_cons, hpre]
    simp only [Bool.false_eq_true, if_false, List.cons_append, List.cons.injEq, true_and]
    exact ih (fun d hd => h d (by simp [hd]))

theorem pyReplace_pat_match (p : Char) (ps rep rest : Str) :
    pyReplace p ps rep ((p :: ps) ++ rest) = rep ++ pyReplace p ps rep rest := by
  rw [List.cons_append, pyReplace_cons]
  have : (p :: ps).isPrefixOf (p :: (ps ++ rest)) = true := by
    simpa using isPrefixOf_append_self (p :: ps) rest
  rw [this]
  simp

/-! ### Concatenation map (used to describe single-character replacements) -/

def mapCat (f : Char → Str) : Str → Str
  | [] => []
  | c :: cs => f c ++ mapCat f cs

theorem mapCat_append (f : Char → Str) (a b : Str) :
    mapCat f (a ++ b) = mapCat f a ++ mapCat f b := by
  induction a with
  | nil => rfl
  | cons c cs ih => simp [mapCat, ih]

theorem pyReplace_single (p : Char) (rep : Str) (t : Str) :
    pyReplace p [] rep t = mapCat (fun c => if c = p then rep else [c]) t := by
  induction t with
  | nil => simp [mapCat, pyReplace_nil]
  | cons c cs ih =>
    rw [pyReplace_cons]
    by_cases hc : c = p
    · subst hc
      have : ([c] : Str).isPrefixOf (c :: cs) = true := by simp [List.isPrefixOf]
      rw [this]
      simp [mapCat, ih]
    · have : ([p] : Str).isPrefixOf (c :: cs) = false := by
        simp [List.isPrefixOf]
        intro hpc
        exact absurd hpc.symm hc
      rw [this]
      simp [mapCat, ih, hc]

/-! ## convert_ch17_comprehensive.py : escape_xml (claim C10) -/

namespace Ch17Comprehensive

/-- The character-wise effect of the three escaping replaces of `escape_xml`. -/
def escC (c : Char) : Str :=
  if c = '&' then chars "&amp;"
  else if c = '<' then chars "&lt;"
  else if c = '>' then chars "&gt;"
  else [c]

def esc3 (t : Str) : Str := mapCat escC t

/-- `escape_xml` from convert_ch17_comprehensive.py: escape `&`, `<`, `>`
and then collapse the double-escaped entities back. -/
def escape_xml (text : Str) : Str :=
  if text = [] then text
  else
    pyReplace '&' (chars "amp;gt;") (chars "&gt;")
      (pyReplace '&' (chars "amp;lt;") (chars "&lt;")
        (pyReplace '&' (chars "amp;amp;") (chars "&amp;")
          (pyReplace '>' [] (chars "&gt;")
            (pyReplace '<' [] (chars "&lt;")
              (pyReplace '&' [] (chars "&amp;") text)))))

/-- The effect of the `&amp;amp;` collapse on the source suffix following an `&`:
if the source continues with a literal `amp;` it is absorbed. -/
def ampT (t : Str) : Str := if (chars "amp;").isPrefixOf t then t.drop 4 else t

theorem ampT_length_le (t : Str) : (ampT t).length ≤ t.length := by
  unfold ampT; split <;> simp [List.length_drop]

theorem ampT_lt_succ (t : Str) : (ampT t).length < t.length + 1 :=
  Nat.lt_succ_of_le (ampT_length_le t)

theorem ampT_drop3_lt_succ (t : Str) : ((ampT t).drop 3).length < t.length + 1 := by
  have := ampT_length_le t
  simp only [List.length_drop]
  omega

/-- Post-pass-1 normal form: escape plus the `&amp;amp;` collapse. -/
def nG1 : Str → Str
  | [] => []
  | c :: t =>
    if c = '&' then
      chars "&amp;" ++ nG1 (ampT t)
    else if c = '<' then chars "&lt;" ++ nG1 t
    else if c = '>' then chars "&gt;" ++ nG1 t
    else c :: nG1 t
termination_by t => t.length
decreasing_by
  · simp only [List.length_cons]; exact ampT_lt_succ _
  · simp
  · simp
  · simp

/-- Post-pass-2 normal form: additionally collapses `&amp;lt;`. -/
def nG2 : Str → Str
  | [] => []
  | c :: t =>
    if c = '&' then
      if (chars "lt;").isPrefixOf (ampT t) then
        chars "&lt;" ++ nG2 ((ampT t).drop 3)
      else
        chars "&amp;" ++ nG2 (ampT t)
    else if c = '<' then chars "&lt;" ++ nG2 t
    else if c = '>' then chars "&gt;" ++ nG2 t
    else c :: nG2 t
termination_by t => t.length
decreasing_by
  · simp only [List.length_cons]; exact ampT_drop3_lt_succ _
  · simp only [List.length_cons]; exact ampT_lt_succ _
  · simp
  · simp
  · simp

/-- Full normal form of `escape_xml`. -/
def nEsc : Str → Str
  | [] => []
  | c :: t =>
    if c = '&' then
      if (chars "lt;").isPrefixOf (ampT t) then
        chars "&lt;" ++ nEsc ((ampT t).drop 3)
      else if (chars "gt;").isPrefixOf (ampT t) then
        chars "&gt;" ++ nEsc ((ampT t).drop 3)
      else
        chars "&amp;" ++ nEsc (ampT t)
    else if c = '<' then chars "&lt;" ++ nEsc t
    else if c = '>' then chars "&gt;" ++ nEsc t
    else c :: nEsc t
termination_by t => t.length
decreasing_by
  · simp only [List.length_cons]; exact ampT_drop3_lt_succ _
  · simp only [List.length_cons]; exact ampT_drop3_lt_succ _
  · simp only [List.length_cons]; exact ampT_lt_succ _
  · simp
  · simp
  · simp

end Ch17Comprehensive

/-! ### Generic head-transparency lemmas -/

def plainC (c : Char) : Prop := c ≠ '&' ∧ c ≠ '<' ∧ c ≠ '>'

instance (c : Char) : Decidable (plainC c) := by unfold plainC; infer_instance

theorem not_plainC_iff (c : Char) : ¬ plainC c ↔ (c = '&' ∨ c = '<' ∨ c = '>') := by
  unfold plainC; tauto

theorem pre_transparent (F : Str → Str)
    (hnil : F [] = [])
    (hplain : ∀ c v, plainC c → F (c :: v) = c :: F v)
    (hspec : ∀ c v, ¬ plainC c → ∃ r, F (c :: v) = '&' :: r)
    (w : Str) (hw : ∀ c ∈ w, plainC c) (v : Str) :
    w.isPrefixOf (F v) = w.isPrefixOf v := by
  induction w generalizing v with
  | nil => simp [List.isPrefixOf]
  | cons a w' ih =>
    have ha : plainC a := hw a (by simp)
    cases v with
    | nil => rw [hnil]
    | cons c v' =>
      by_cases hc : plainC c
      · rw [hplain c v' hc]
        by_cases hac : a = c
        · subst hac
          simp [List.isPrefixOf, ih (fun d hd => hw d (by simp [hd])) v']
        · have hb : (a == c) = false := by simp [hac]
          simp [List.isPrefixOf, hb]
      · obtain ⟨r, hr⟩ := hspec c v' hc
        rw [hr]
        have ha1 : (a == '&') = false := by simp [ha.1]
        have hac : (a == c) = false := by
          rcases (not_plainC_iff c).mp hc with h | h | h <;> subst h <;> simp
          · exact ha.1
          · exact ha.2.1
          · exact ha.2.2
        simp [List.isPrefixOf, ha1, hac]

theorem append_plain (F : Str → Str)
    (hplain : ∀ c v, plainC c → F (c :: v) = c :: F v)
    (w : Str) (hw : ∀ c ∈ w, plainC c) (v : Str) :
    F (w ++ v) = w ++ F v := by
  induction w with
  | nil => simp
  | cons a w' ih =>
    have ha : plainC a := hw a (by simp)
    rw [List.cons_append, hplain a (w' ++ v) ha, ih (fun d hd => hw d (by simp [hd]))]
    simp

namespace Ch17Comprehensive

theorem esc3_nil : esc3 [] = [] := rfl

theorem esc3_cons_plain (c : Char) (v : Str) (hc : plainC c) :
    esc3 (c :: v) = c :: esc3 v := by
  obtain ⟨h1, h2, h3⟩ := hc
  simp [esc3, mapCat, escC, h1, h2, h3]

theorem esc3_cons_spec (c : Char) (v : Str) (hc : ¬ plainC c) :
    ∃ r, esc3 (c :: v) = '&' :: r := by
  rcases (not_plainC_iff c).mp hc with h | h | h <;> subst h <;>
    simp [esc3, mapCat, escC] <;> exact ⟨_, rfl⟩

theorem nG1_nil : nG1 [] = [] := by simp [nG1]

theorem nG1_cons_plain (c : Char) (v : Str) (hc : plainC c) :
    nG1 (c :: v) = c :: nG1 v := by
  obtain ⟨h1, h2, h3⟩ := hc
  rw [nG1]
  simp [h1, h2, h3]

theorem nG1_cons_spec (c : Char) (v : Str) (hc : ¬ plainC c) :
    ∃ r, nG1 (c :: v) = '&' :: r := by
  rcases (not_plainC_iff c).mp hc with h | h | h <;> subst h <;> rw [nG1] <;> simp <;>
    exact ⟨_, rfl⟩

end Ch17Comprehensive

theorem isPrefixOf_cons_ne {a b : Char} (w r : Str) (h : ¬ a = b) :
    (a :: w).isPrefixOf (b :: r) = false := by
  have hb : (a == b) = false := by simp [h]
  simp [List.isPrefixOf, hb]

/-- Stepping a replace over a leading entity `p :: tl` that does not match the
pattern beyond its first character. -/
theorem pyReplace_step_entity (p : Char) (ps rep : Str) (tl rest : Str)
    (hmis : ps.isPrefixOf (tl ++ rest) = false) (hno : ∀ c ∈ tl, c ≠ p) :
    pyReplace p ps rep ((p :: tl) ++ rest) = (p :: tl) ++ pyReplace p ps rep rest := by
  rw [List.cons_append, pyReplace_cons]
  have hcond : (p :: ps).isPrefixOf (p :: (tl ++ rest)) = false := by
    simp [List.isPrefixOf, hmis]
  rw [hcond]
  simp only [Bool.false_eq_true, if_false, List.cons_append, List.cons.injEq, true_and]
  exact pyReplace_append_left ps rep rest hno

namespace Ch17Comprehensive

theorem nG2_nil : nG2 [] = [] := by simp [nG2]

theorem nG2_cons_plain (c : Char) (v : Str) (hc : plainC c) :
    nG2 (c :: v) = c :: nG2 v := by
  obtain ⟨h1, h2, h3⟩ := hc
  rw [nG2]
  simp [h1, h2, h3]

theorem cons_lt : chars "&lt;" = '&' :: chars "lt;" := by decide

theorem cons_gt : chars "&gt;" = '&' :: chars "gt;" := by decide

theorem cons_amp : chars "&amp;" = '&' :: chars "amp;" := by decide

theorem nG2_cons_spec (c : Char) (v : Str) (hc : ¬ plainC c) :
    ∃ r, nG2 (c :: v) = '&' :: r := by
  rcases (not_plainC_iff c).mp hc with h | h | h <;> subst h <;> rw [nG2] <;> simp
  · split
    · exact ⟨_, by rw [cons_lt, List.cons_append]⟩
    · exact ⟨_, by rw [cons_amp, List.cons_append]⟩
  · exact ⟨_, by rw [cons_lt, List.cons_append]⟩
  · exact ⟨_, by rw [cons_gt, List.cons_append]⟩

theorem nEsc_nil : nEsc [] = [] := by simp [nEsc]

theorem nEsc_cons_plain (c : Char) (v : Str) (hc : plainC c) :
    nEsc (c :: v) = c :: nEsc v := by
  obtain ⟨h1, h2, h3⟩ := hc
  rw [nEsc]
  simp [h1, h2, h3]

theorem nEsc_cons_spec (c : Char) (v : Str) (hc : ¬ plainC c) :
    ∃ r, nEsc (c :: v) = '&' :: r := by
  rcases (not_plainC_iff c).mp hc with h | h | h <;> subst h <;> rw [nEsc] <;> simp
  · split
    · exact ⟨_, by rw [cons_lt, List.cons_append]⟩
    · split
      · exact ⟨_, by rw [cons_gt, List.cons_append]⟩
      · exact ⟨_, by rw [cons_amp, List.cons_append]⟩
  · exact ⟨_, by rw [cons_lt, List.cons_append]⟩
  · exact ⟨_, by rw [cons_gt, List.cons_append]⟩

theorem esc3_pre (w : Str) (hw : ∀ c ∈ w, plainC c) (v : Str) :
    w.isPrefixOf (esc3 v) = w.isPrefixOf v :=
  pre_transparent esc3 esc3_nil esc3_cons_plain esc3_cons_spec w hw v

theorem nG1_pre (w : Str) (hw : ∀ c ∈ w, plainC c) (v : Str) :
    w.isPrefixOf (nG1 v) = w.isPrefixOf v :=
  pre_transparent nG1 nG1_nil nG1_cons_plain nG1_cons_spec w hw v

theorem nG2_pre (w : Str) (hw : ∀ c ∈ w, plainC c) (v : Str) :
    w.isPrefixOf (nG2 v) = w.isPrefixOf v :=
  pre_transparent nG2 nG2_nil nG2_cons_plain nG2_cons_spec w hw v

theorem nEsc_pre (w : Str) (hw : ∀ c ∈ w, plainC c) (v : Str) :
    w.isPrefixOf (nEsc v) = w.isPrefixOf v :=
  pre_transparent nEsc nEsc_nil nEsc_cons_plain nEsc_cons_spec w hw v

theorem nG1_append_plain (w : Str) (hw : ∀ c ∈ w, plainC c) (v : Str) :
    nG1 (w ++ v) = w ++ nG1 v :=
  append_plain nG1 nG1_cons_plain w hw v

theorem nG2_append_plain (w : Str) (hw : ∀ c ∈ w, plainC c) (v : Str) :
    nG2 (w ++ v) = w ++ nG2 v :=
  append_plain nG2 nG2_cons_plain w hw v

theorem esc3_append (a b : Str) : esc3 (a ++ b) = esc3 a ++ esc3 b :=
  mapCat_append escC a b

end Ch17Comprehensive

namespace Ch17Comprehensive

theorem amp_plain : ∀ c ∈ chars "amp;", plainC c := by decide

theorem lt_plain : ∀ c ∈ chars "lt;", plainC c := by decide

theorem gt_plain : ∀ c ∈ chars "gt;", plainC c := by decide

theorem amp_no_amp : ∀ c ∈ chars "amp;", c ≠ '&' := by decide

theorem lt_no_amp : ∀ c ∈ chars "lt;", c ≠ '&' := by decide

theorem gt_no_amp : ∀ c ∈ chars "gt;", c ≠ '&' := by decide

theorem escC_amp : escC '&' = chars "&amp;" := by decide

theorem escC_lt : escC '<' = chars "&lt;" := by decide

theorem escC_gt : escC '>' = chars "&gt;" := by decide

theorem escC_plain (c : Char) (h1 : ¬ c = '&') (h2 : ¬ c = '<') (h3 : ¬ c = '>') :
    escC c = [c] := by
  simp [escC, h1, h2, h3]

theorem esc3_cons (c : Char) (cs : Str) : esc3 (c :: cs) = escC c ++ esc3 cs := rfl

theorem lt_append (X : Str) : chars "lt;" ++ X = 'l' :: (chars "t;" ++ X) := by
  rw [show chars "lt;" = 'l' :: chars "t;" from by decide, List.cons_append]

theorem gt_append (X : Str) : chars "gt;" ++ X = 'g' :: (chars "t;" ++ X) := by
  rw [show chars "gt;" = 'g' :: chars "t;" from by decide, List.cons_append]

/-- Pass 1 (`&amp;amp; -> &amp;`) applied to the escaped text. -/
theorem F1_esc3 (t : Str) :
    pyReplace '&' (chars "amp;amp;") (chars "&amp;") (esc3 t) = nG1 t := by
  induction t using nG1.induct with
  | case1 => simp [esc3, mapCat, pyReplace_nil, nG1_nil]
  | case2 cs ih =>
    rw [esc3_cons, escC_amp]
    by_cases hp : (chars "amp;").isPrefixOf cs = true
    · have hdec : cs = chars "amp;" ++ cs.drop 4 := by
        have h := eq_append_drop_of_isPrefixOf hp
        rwa [show (chars "amp;").length = 4 from by decide] at h
      have hT : ampT cs = cs.drop 4 := by simp [ampT, hp]
      conv_lhs => rw [hdec, esc3_append, ← List.append_assoc]
      rw [show chars "&amp;" ++ esc3 (chars "amp;") = ('&' :: chars "amp;amp;") from by decide,
        pyReplace_pat_match]
      rw [hT] at ih
      rw [ih]
      conv_rhs => rw [nG1]
      simp [hT]
    · have hT : ampT cs = cs := by simp [ampT, hp]
      have hmis : (chars "amp;amp;").isPrefixOf (chars "amp;" ++ esc3 cs) = false := by
        rw [show chars "amp;amp;" = chars "amp;" ++ chars "amp;" from by decide,
          isPrefixOf_append_same, esc3_pre (chars "amp;") amp_plain cs]
        simp only [Bool.not_eq_true] at hp
        exact hp
      rw [cons_amp, pyReplace_step_entity '&' (chars "amp;amp;") ('&' :: chars "amp;")
        (chars "amp;") (esc3 cs) hmis amp_no_amp]
      rw [hT, cons_amp] at ih
      rw [ih]
      conv_rhs => rw [nG1]
      simp [hT, cons_amp]
  | case3 cs h ih =>
    rw [esc3_cons, escC_lt, cons_lt]
    have hmis : (chars "amp;amp;").isPrefixOf (chars "lt;" ++ esc3 cs) = false := by
      rw [show chars "amp;amp;" = 'a' :: chars "mp;amp;" from by decide, lt_append]
      exact isPrefixOf_cons_ne _ _ (by decide)
    rw [pyReplace_step_entity '&' (chars "amp;amp;") (chars "&amp;")
      (chars "lt;") (esc3 cs) hmis lt_no_amp, ih]
    conv_rhs => rw [nG1]
    simp [cons_lt]
  | case4 cs h1 h2 ih =>
    rw [esc3_cons, escC_gt, cons_gt]
    have hmis : (chars "amp;amp;").isPrefixOf (chars "gt;" ++ esc3 cs) = false := by
      rw [show chars "amp;amp;" = 'a' :: chars "mp;amp;" from by decide, gt_append]
      exact isPrefixOf_cons_ne _ _ (by decide)
    rw [pyReplace_step_entity '&' (chars "amp;amp;") (chars "&amp;")
      (chars "gt;") (esc3 cs) hmis gt_no_amp, ih]
    conv_rhs => rw [nG1]
    simp [cons_gt]
  | case5 c cs h1 h2 h3 ih =>
    rw [esc3_cons, escC_plain c h1 h2 h3, List.singleton_append, pyReplace_cons,
      isPrefixOf_cons_ne _ _ (fun he => h1 he.symm)]
    simp only [Bool.false_eq_true, if_false]
    rw [ih, nG1_cons_plain c cs ⟨h1, h2, h3⟩]

end Ch17Comprehensive

namespace Ch17Comprehensive

theorem nG1_amp (t : Str) : nG1 ('&' :: t) = chars "&amp;" ++ nG1 (ampT t) := by
  rw [nG1]; simp

theorem nG1_lt (t : Str) : nG1 ('<' :: t) = chars "&lt;" ++ nG1 t := by
  rw [nG1]; simp

theorem nG1_gt (t : Str) : nG1 ('>' :: t) = chars "&gt;" ++ nG1 t := by
  rw [nG1]; simp

theorem nG2_amp (t : Str) :
    nG2 ('&' :: t) =
      if (chars "lt;").isPrefixOf (ampT t) then chars "&lt;" ++ nG2 ((ampT t).drop 3)
      else chars "&amp;" ++ nG2 (ampT t) := by
  rw [nG2]; simp

theorem nG2_lt (t : Str) : nG2 ('<' :: t) = chars "&lt;" ++ nG2 t := by
  rw [nG2]; simp

theorem nG2_gt (t : Str) : nG2 ('>' :: t) = chars "&gt;" ++ nG2 t := by
  rw [nG2]; simp

theorem nEsc_amp (t : Str) :
    nEsc ('&' :: t) =
      if (chars "lt;").isPrefixOf (ampT t) then chars "&lt;" ++ nEsc ((ampT t).drop 3)
      else if (chars "gt;").isPrefixOf (ampT t) then chars "&gt;" ++ nEsc ((ampT t).drop 3)
      else chars "&amp;" ++ nEsc (ampT t) := by
  rw [nEsc]; simp

theorem nEsc_lt (t : Str) : nEsc ('<' :: t) = chars "&lt;" ++ nEsc t := by
  rw [nEsc]; simp

theorem nEsc_gt (t : Str) : nEsc ('>' :: t) = chars "&gt;" ++ nEsc t := by
  rw [nEsc]; simp

/-- Pass 2 (`&amp;lt; -> &lt;`) applied to the pass-1 normal form. -/
theorem F2_nG1 (t : Str) :
    pyReplace '&' (chars "amp;lt;") (chars "&lt;") (nG1 t) = nG2 t := by
  induction t using nG2.induct with
  | case1 => simp [nG1_nil, pyReplace_nil, nG2_nil]
  | case2 cs hlt ih =>
    rw [nG1_amp]
    have hdec : ampT cs = chars "lt;" ++ (ampT cs).drop 3 := by
      have h := eq_append_drop_of_isPrefixOf hlt
      rwa [show (chars "lt;").length = 3 from by decide] at h
    conv_lhs => rw [hdec, nG1_append_plain (chars "lt;") lt_plain, ← List.append_assoc]
    rw [show chars "&amp;" ++ chars "lt;" = ('&' :: chars "amp;lt;") from by decide,
      pyReplace_pat_match, ih, nG2_amp, if_pos hlt]
  | case3 cs hlt ih =>
    rw [nG1_amp, cons_amp]
    simp only [Bool.not_eq_true] at hlt
    have hmis : (chars "amp;lt;").isPrefixOf (chars "amp;" ++ nG1 (ampT cs)) = false := by
      rw [show chars "amp;lt;" = chars "amp;" ++ chars "lt;" from by decide,
        isPrefixOf_append_same, nG1_pre (chars "lt;") lt_plain (ampT cs)]
      exact hlt
    rw [pyReplace_step_entity '&' (chars "amp;lt;") (chars "&lt;")
      (chars "amp;") (nG1 (ampT cs)) hmis amp_no_amp, ih, nG2_amp, hlt]
    simp [cons_amp]
  | case4 cs h ih =>
    rw [nG1_lt, cons_lt]
    have hmis : (chars "amp;lt;").isPrefixOf (chars "lt;" ++ nG1 cs) = false := by
      rw [show chars "amp;lt;" = 'a' :: chars "mp;lt;" from by decide, lt_append]
      exact isPrefixOf_cons_ne _ _ (by decide)
    rw [pyReplace_step_entity '&' (chars "amp;lt;") ('&' :: chars "lt;")
      (chars "lt;") (nG1 cs) hmis lt_no_amp]
    rw [cons_lt] at ih
    rw [ih, nG2_lt, cons_lt]
  | case5 cs h1 h2 ih =>
    rw [nG1_gt, cons_gt]
    have hmis : (chars "amp;lt;").isPrefixOf (chars "gt;" ++ nG1 cs) = false := by
      rw [show chars "amp;lt;" = 'a' :: chars "mp;lt;" from by decide, gt_append]
      exact isPrefixOf_cons_ne _ _ (by decide)
    rw [pyReplace_step_entity '&' (chars "amp;lt;") (chars "&lt;")
      (chars "gt;") (nG1 cs) hmis gt_no_amp, ih, nG2_gt, cons_gt]
  | case6 c cs h1 h2 h3 ih =>
    rw [nG1_cons_plain c cs ⟨h1, h2, h3⟩, pyReplace_cons,
      isPrefixOf_cons_ne _ _ (fun he => h1 he.symm)]
    simp only [Bool.false_eq_true, if_false]
    rw [ih, nG2_cons_plain c cs ⟨h1, h2, h3⟩]

/-- Pass 3 (`&amp;gt; -> &gt;`) applied to the pass-2 normal form. -/
theorem F3_nG2 (t : Str) :
    pyReplace '&' (chars "amp;gt;") (chars "&gt;") (nG2 t) = nEsc t := by
  induction t using nEsc.induct with
  | case1 => simp [nG2_nil, pyReplace_nil, nEsc_nil]
  | case2 cs hlt ih =>
    rw [nG2_amp, if_pos hlt, cons_lt]
    have hmis : (chars "amp;gt;").isPrefixOf (chars "lt;" ++ nG2 ((ampT cs).drop 3)) = false := by
      rw [show chars "amp;gt;" = 'a' :: chars "mp;gt;" from by decide, lt_append]
      exact isPrefixOf_cons_ne _ _ (by decide)
    rw [pyReplace_step_entity '&' (chars "amp;gt;") (chars "&gt;")
      (chars "lt;") (nG2 ((ampT cs).drop 3)) hmis lt_no_amp, ih, nEsc_amp, if_pos hlt, cons_lt]
  | case3 cs hlt hgt ih =>
    simp only [Bool.not_eq_true] at hlt
    rw [nG2_amp, hlt]
    simp only [Bool.false_eq_true, if_false]
    have hdec : ampT cs = chars "gt;" ++ (ampT cs).drop 3 := by
      have h := eq_append_drop_of_isPrefixOf hgt
      rwa [show (chars "gt;").length = 3 from by decide] at h
    conv_lhs => rw [hdec, nG2_append_plain (chars "gt;") gt_plain, ← List.append_assoc]
    rw [show chars "&amp;" ++ chars "gt;" = ('&' :: chars "amp;gt;") from by decide,
      pyReplace_pat_match, ih, nEsc_amp, if_pos hgt, hlt]
    simp
  | case4 cs hlt hgt ih =>
    simp only [Bool.not_eq_true] at hlt hgt
    rw [nG2_amp, hlt]
    simp only [Bool.false_eq_true, if_false]
    rw [cons_amp]
    have hmis : (chars "amp;gt;").isPrefixOf (chars "amp;" ++ nG2 (ampT cs)) = false := by
      rw [show chars "amp;gt;" = chars "amp;" ++ chars "gt;" from by decide,
        isPrefixOf_append_same, nG2_pre (chars "gt;") gt_plain (ampT cs)]
      exact hgt
    rw [pyReplace_step_entity '&' (chars "amp;gt;") (chars "&gt;")
      (chars "amp;") (nG2 (ampT cs)) hmis amp_no_amp, ih, nEsc_amp, hlt, hgt]
    simp [cons_amp]
  | case5 cs h ih =>
    rw [nG2_lt, cons_lt]
    have hmis : (chars "amp;gt;").isPrefixOf (chars "lt;" ++ nG2 cs) = false := by
      rw [show chars "amp;gt;" = 'a' :: chars "mp;gt;" from by decide, lt_append]
      exact isPrefixOf_cons_ne _ _ (by decide)
    rw [pyReplace_step_entity '&' (chars "amp;gt;") (chars "&gt;")
      (chars "lt;") (nG2 cs) hmis lt_no_amp, ih, nEsc_lt, cons_lt]
  | case6 cs h1 h2 ih =>
    rw [nG2_gt, cons_gt]
    have hmis : (chars "amp;gt;").isPrefixOf (chars "gt;" ++ nG2 cs) = false := by
      rw [show chars "amp;gt;" = 'a' :: chars "mp;gt;" from by decide, gt_append]
      exact isPrefixOf_cons_ne _ _ (by decide)
    rw [pyReplace_step_entity '&' (chars "amp;gt;") ('&' :: chars "gt;")
      (chars "gt;") (nG2 cs) hmis gt_no_amp]
    rw [cons_gt] at ih
    rw [ih, nEsc_gt, cons_gt]
  | case7 c cs h1 h2 h3 ih =>
    rw [nG2_cons_plain c cs ⟨h1, h2, h3⟩, pyReplace_cons,
      isPrefixOf_cons_ne _ _ (fun he => h1 he.symm)]
    simp only [Bool.false_eq_true, if_false]
    rw [ih, nEsc_cons_plain c cs ⟨h1, h2, h3⟩]

end Ch17Comprehensive

namespace Ch17Comprehensive

theorem amp_not_pre_lt (X : Str) : (chars "amp;").isPrefixOf (chars "lt;" ++ X) = false := by
  rw [show chars "amp;" = 'a' :: chars "mp;" from by decide, lt_append]
  exact isPrefixOf_cons_ne _ _ (by decide)

theorem amp_not_pre_gt (X : Str) : (chars "amp;").isPrefixOf (chars "gt;" ++ X) = false := by
  rw [show chars "amp;" = 'a' :: chars "mp;" from by decide, gt_append]
  exact isPrefixOf_cons_ne _ _ (by decide)

theorem gt_not_pre_lt (X : Str) : (chars "gt;").isPrefixOf (chars "lt;" ++ X) = false := by
  rw [show chars "gt;" = 'g' :: chars "t;" from by decide, lt_append]
  exact isPrefixOf_cons_ne _ _ (by decide)

theorem lt_not_pre_gt (X : Str) : (chars "lt;").isPrefixOf (chars "gt;" ++ X) = false := by
  rw [show chars "lt;" = 'l' :: chars "t;" from by decide, gt_append]
  exact isPrefixOf_cons_ne _ _ (by decide)

/-- `nEsc` leaves an emitted `&lt;` entity alone. -/
theorem nEsc_entity_lt (X : Str) : nEsc (chars "&lt;" ++ X) = chars "&lt;" ++ nEsc X := by
  rw [cons_lt, List.cons_append, nEsc_amp]
  have h1 : ampT (chars "lt;" ++ X) = chars "lt;" ++ X := by
    simp [ampT, amp_not_pre_lt]
  rw [h1, if_pos (isPrefixOf_append_self _ _)]
  rw [show (3 : Nat) = (chars "lt;").length from by decide, List.drop_left, cons_lt,
    List.cons_append]

/-- `nEsc` leaves an emitted `&gt;` entity alone. -/
theorem nEsc_entity_gt (X : Str) : nEsc (chars "&gt;" ++ X) = chars "&gt;" ++ nEsc X := by
  rw [cons_gt, List.cons_append, nEsc_amp]
  have h1 : ampT (chars "gt;" ++ X) = chars "gt;" ++ X := by
    simp [ampT, amp_not_pre_gt]
  rw [h1, lt_not_pre_gt]
  simp only [Bool.false_eq_true, if_false]
  rw [if_pos (isPrefixOf_append_self _ _)]
  rw [show (3 : Nat) = (chars "gt;").length from by decide, List.drop_left, cons_gt,
    List.cons_append]

/-- `nEsc` leaves an emitted `&amp;` entity alone when no `lt;`/`gt;` follows. -/
theorem nEsc_entity_amp (X : Str)
    (hlt : (chars "lt;").isPrefixOf X = false)
    (hgt : (chars "gt;").isPrefixOf X = false) :
    nEsc (chars "&amp;" ++ X) = chars "&amp;" ++ nEsc X := by
  rw [cons_amp, List.cons_append, nEsc_amp]
  have h1 : ampT (chars "amp;" ++ X) = X := by
    unfold ampT
    rw [if_pos (isPrefixOf_append_self _ _),
      show (4 : Nat) = (chars "amp;").length from by decide, List.drop_left]
  rw [h1, hlt, hgt]
  simp [cons_amp]

/-- `nEsc` is idempotent. -/
theorem nEsc_idem (t : Str) : nEsc (nEsc t) = nEsc t := by
  induction t using nEsc.induct with
  | case1 => simp [nEsc_nil]
  | case2 cs hlt ih =>
    rw [nEsc_amp, if_pos hlt, nEsc_entity_lt, ih]
  | case3 cs hlt hgt ih =>
    simp only [Bool.not_eq_true] at hlt
    rw [nEsc_amp, hlt]
    simp only [Bool.false_eq_true, if_false]
    rw [if_pos hgt, nEsc_entity_gt, ih]
  | case4 cs hlt hgt ih =>
    simp only [Bool.not_eq_true] at hlt hgt
    rw [nEsc_amp, hlt, hgt]
    simp only [Bool.false_eq_true, if_false]
    have h1 : (chars "lt;").isPrefixOf (nEsc (ampT cs)) = false := by
      rw [nEsc_pre (chars "lt;") lt_plain (ampT cs)]; exact hlt
    have h2 : (chars "gt;").isPrefixOf (nEsc (ampT cs)) = false := by
      rw [nEsc_pre (chars "gt;") gt_plain (ampT cs)]; exact hgt
    rw [nEsc_entity_amp _ h1 h2, ih]
  | case5 cs h ih =>
    rw [nEsc_lt, nEsc_entity_lt, ih]
  | case6 cs h1 h2 ih =>
    rw [nEsc_gt, nEsc_entity_gt, ih]
  | case7 c cs h1 h2 h3 ih =>
    rw [nEsc_cons_plain c cs ⟨h1, h2, h3⟩, nEsc_cons_plain c _ ⟨h1, h2, h3⟩, ih]

theorem mapCat3_char (c : Char) :
    mapCat (fun d => if d = '>' then chars "&gt;" else [d])
      (mapCat (fun d => if d = '<' then chars "&lt;" else [d])
        (if c = '&' then chars "&amp;" else [c])) = escC c := by
  by_cases h1 : c = '&'
  · subst h1; decide
  · by_cases h2 : c = '<'
    · subst h2; decide
    · by_cases h3 : c = '>'
      · subst h3; decide
      · simp [escC, h1, h2, h3, mapCat]

/-- The three single-character escaping replaces compose to `esc3`. -/
theorem singles_eq_esc3 (t : Str) :
    pyReplace '>' [] (chars "&gt;")
      (pyReplace '<' [] (chars "&lt;")
        (pyReplace '&' [] (chars "&amp;") t)) = esc3 t := by
  rw [pyReplace_single, pyReplace_single, pyReplace_single]
  induction t with
  | nil => rfl
  | cons c cs ih =>
    show mapCat _ (mapCat _ ((if c = '&' then chars "&amp;" else [c]) ++ _)) = _
    rw [mapCat_append, mapCat_append, esc3_cons, ih, mapCat3_char]

/-- `escape_xml` computes the normal form `nEsc`. -/
theorem escape_xml_eq_nEsc (t : Str) : escape_xml t = nEsc t := by
  by_cases ht : t = []
  · subst ht; simp [escape_xml, nEsc_nil]
  · unfold escape_xml
    rw [if_neg ht, singles_eq_esc3, F1_esc3, F2_nG1, F3_nG2]

end Ch17Comprehensive

/-- C10: `escape_xml` in convert_ch17_comprehensive.py is idempotent: for every
string `t`, `escape_xml (escape_xml t) = escape_xml t`, because after
substituting the three reserved characters it collapses the double-escaped
entities `&amp;amp;`, `&amp;lt;`, `&amp;gt;` back to their single-escaped
forms. -/
theorem C10_escape_xml_idempotent (t : Str) :
    Ch17Comprehensive.escape_xml (Ch17Comprehensive.escape_xml t) =
      Ch17Comprehensive.escape_xml t := by
  rw [Ch17Comprehensive.escape_xml_eq_nEsc, Ch17Comprehensive.escape_xml_eq_nEsc,
    Ch17Comprehensive.nEsc_idem]

example : Ch17Comprehensive.escape_xml (chars "a<b&amp;c") = chars "a&lt;b&amp;c" := by decide

example : Ch17Comprehensive.escape_xml (chars "&amp;lt;") = chars "&lt;" := by decide

/-! ### More Python string primitives -/

def pyLower (t : Str) : Str := t.map Char.toLower

/-- Python `str.strip(set)`: left strip. -/
def lstripSet (S : Str) (l : Str) : Str := l.dropWhile (fun c => S.contains c)

/-- Python `str.strip(set)`: right strip. -/
def rstripSet (S : Str) (l : Str) : Str := (l.reverse.dropWhile (fun c => S.contains c)).reverse

/-- Python `str.strip(set)`. -/
def pyStripSet (S : Str) (l : Str) : Str := rstripSet S (lstripSet S l)

/-- ASCII whitespace, for Python `str.strip()` / `str.rstrip()`. -/
def wsSet : Str := [' ', '\t', '\n', '\r', '\x0b', '\x0c']

def pyStrip (l : Str) : Str := pyStripSet wsSet l

def pyRstrip (l : Str) : Str := rstripSet wsSet l

/-! ## Fallback id derivations (claim C6) -/

/-- The regex class `[a-z0-9]` of characters kept by the fallback id rule. -/
def isSlugChar (c : Char) : Bool := ('a' ≤ c && c ≤ 'z') || ('0' ≤ c && c ≤ '9')

namespace Ch17Full

/-- One left-to-right pass of `re.sub(r'[^a-z0-9]+', '-', s)`: the flag says
whether the scanner is inside a non-alphanumeric run (whose first character
already emitted the hyphen). -/
def collapseGo : Bool → Str → Str
  | _, [] => []
  | inRun, c :: cs =>
    if isSlugChar c then c :: collapseGo false cs
    else (if inRun then [] else ['-']) ++ collapseGo true cs

end Ch17Full

namespace Ch17Full

/-- `re.sub(r'[^a-z0-9]+', '-', s)`: every maximal run of non-alphanumeric
characters becomes a single hyphen. -/
def collapseRuns (s : Str) : Str := collapseGo false s

/-- The worked-example id derivation of convert_ch17_full.py (line 238):
`re.sub(r'[^a-z0-9]+', '-', ex_title.lower()).strip('-') if ex_title else 'example'`. -/
def slug_core (t : Str) : Str := pyStripSet ['-'] (collapseRuns (pyLower t))

def ex_id (ex_title : Str) : Str :=
  if ex_title = [] then chars "example" else slug_core ex_title

end Ch17Full

namespace Ch24Enhanced

/-- The generic section id derivation of convert_ch24_enhanced.py (line 383):
`'sec-' + title.lower().replace(' ', '-').replace(':', '').replace(',', '')`. -/
def section_id (title : Str) : Str :=
  chars "sec-" ++
    pyReplace ',' [] []
      (pyReplace ':' [] []
        (pyReplace ' ' [] ['-'] (pyLower title)))

/-- The subsection id derivation of convert_ch24_enhanced.py (line 426). -/
def subsection_id (title : Str) : Str :=
  chars "subsec-" ++
    pyReplace ',' [] []
      (pyReplace ':' [] []
        (pyReplace ' ' [] ['-'] (pyLower title)))

end Ch24Enhanced

/-- The maximal alphanumeric words of a string, in order. -/
def alnumChunks : Str → List Str
  | [] => []
  | c :: cs =>
    if isSlugChar c then
      (c :: cs.takeWhile isSlugChar) :: alnumChunks (cs.dropWhile isSlugChar)
    else
      alnumChunks (cs.dropWhile (fun d => !isSlugChar d))
termination_by s => s.length
decreasing_by
  · have := (List.dropWhile_sublist (l := cs) isSlugChar).length_le
    simp only [List.length_cons]
    omega
  · have := (List.dropWhile_sublist (l := cs) (fun d => !isSlugChar d)).length_le
    simp only [List.length_cons]
    omega

/-- The fallback id rule exactly as the spec states it (§4.1): lower-case the
title, replace runs of non-alphanumeric characters with a single hyphen, and
trim leading/trailing hyphens; equivalently, join the maximal alphanumeric
words of the lower-cased title with single hyphens. -/
def specFallbackId (t : Str) : Str := List.intercalate ['-'] (alnumChunks (pyLower t))

/-! ### Helper lemmas for the slug equivalence -/

theorem dropWhile_head_false {p : Char → Bool} {l : Str} {d : Char} {ds : Str}
    (h : l.dropWhile p = d :: ds) : p d = false := by
  induction l with
  | nil => simp at h
  | cons c cs ih =>
    by_cases hc : p c = true
    · rw [List.dropWhile_cons_of_pos hc] at h
      exact ih h
    · rw [List.dropWhile_cons_of_neg hc] at h
      cases h
      simpa using hc

theorem dropWhile_nil_all {p : Char → Bool} {l : Str}
    (h : l.dropWhile p = []) : ∀ c ∈ l, p c = true := by
  induction l with
  | nil => simp
  | cons c cs ih =>
    by_cases hc : p c = true
    · rw [List.dropWhile_cons_of_pos hc] at h
      intro d hd
      rcases List.mem_cons.mp hd with rfl | hd'
      · exact hc
      · exact ih h d hd'
    · rw [List.dropWhile_cons_of_neg hc] at h
      simp at h

theorem slug_ne_dash {c : Char} (h : isSlugChar c = true) : c ≠ '-' := by
  intro he
  subst he
  simp [isSlugChar] at h

theorem lstrip_cons_notMem {S : Str} {c : Char} (l : Str) (h : S.contains c = false) :
    lstripSet S (c :: l) = c :: l := by
  unfold lstripSet
  rw [List.dropWhile_cons_of_neg (by simpa using h)]

theorem lstrip_cons_mem {S : Str} {c : Char} (l : Str) (h : S.contains c = true) :
    lstripSet S (c :: l) = lstripSet S l := by
  unfold lstripSet
  rw [List.dropWhile_cons_of_pos (by simpa using h)]

theorem dropWhile_eq_self_of_all {p : Char → Bool} {l : Str}
    (h : ∀ c ∈ l, p c = false) : l.dropWhile p = l := by
  cases l with
  | nil => rfl
  | cons c cs => exact List.dropWhile_cons_of_neg (by simp [h c (by simp)])

theorem rstrip_eq_self {S : Str} {l : Str} (h : ∀ c ∈ l, S.contains c = false) :
    rstripSet S l = l := by
  unfold rstripSet
  rw [dropWhile_eq_self_of_all (fun c hc => by simpa using h c (List.mem_reverse.mp hc))]
  exact List.reverse_reverse l

theorem dropWhile_append_all {p : Char → Bool} {xs : Str} (ys : Str)
    (h : ∀ c ∈ xs, p c = true) : (xs ++ ys).dropWhile p = ys.dropWhile p := by
  induction xs with
  | nil => rfl
  | cons c cs ih =>
    rw [List.cons_append, List.dropWhile_cons_of_pos (h c (by simp))]
    exact ih (fun d hd => h d (by simp [hd]))

theorem dropWhile_append_of_ne {p : Char → Bool} {xs : Str} (ys : Str)
    (h : xs.dropWhile p ≠ []) : (xs ++ ys).dropWhile p = xs.dropWhile p ++ ys := by
  induction xs with
  | nil => simp at h
  | cons c cs ih =>
    by_cases hc : p c = true
    · rw [List.cons_append, List.dropWhile_cons_of_pos hc, List.dropWhile_cons_of_pos hc]
      exact ih (by rwa [List.dropWhile_cons_of_pos hc] at h)
    · rw [List.cons_append, List.dropWhile_cons_of_neg (by simpa using hc),
        List.dropWhile_cons_of_neg (by simpa using hc)]
      simp

theorem rstrip_append_all_mem {S : Str} (A : Str) {B : Str}
    (h : ∀ c ∈ B, S.contains c = true) :
    rstripSet S (A ++ B) = rstripSet S A := by
  unfold rstripSet
  rw [List.reverse_append, dropWhile_append_all A.reverse
    (fun c hc => by simpa using h c (List.mem_reverse.mp hc))]

theorem rstrip_ne_nil {S : Str} {l : Str} {c : Char}
    (hc : c ∈ l) (hmem : S.contains c = false) : rstripSet S l ≠ [] := by
  intro he
  unfold rstripSet at he
  have h1 : l.reverse.dropWhile (fun d => S.contains d) = [] := by
    have := congrArg List.reverse he
    simpa using this
  have := dropWhile_nil_all h1 c (List.mem_reverse.mpr hc)
  rw [hmem] at this
  exact absurd this (by simp)

theorem rstrip_append_of_ne {S : Str} (A : Str) {B : Str} (h : rstripSet S B ≠ []) :
    rstripSet S (A ++ B) = A ++ rstripSet S B := by
  have hB : B.reverse.dropWhile (fun c => S.contains c) ≠ [] := by
    intro hE
    exact h (by unfold rstripSet; rw [hE]; rfl)
  unfold rstripSet
  rw [List.reverse_append, dropWhile_append_of_ne A.reverse hB, List.reverse_append,
    List.reverse_reverse]

namespace Ch17Full

theorem collapseGo_nil (b : Bool) : collapseGo b [] = [] := rfl

theorem collapseGo_cons_slug (b : Bool) {c : Char} (cs : Str) (hc : isSlugChar c = true) :
    collapseGo b (c :: cs) = c :: collapseGo false cs := by
  cases b <;> simp [collapseGo, hc]

theorem collapseGo_cons_nonslug_false {c : Char} (cs : Str) (hc : isSlugChar c = false) :
    collapseGo false (c :: cs) = '-' :: collapseGo true cs := by
  simp [collapseGo, hc]

theorem collapseGo_cons_nonslug_true {c : Char} (cs : Str) (hc : isSlugChar c = false) :
    collapseGo true (c :: cs) = collapseGo true cs := by
  simp [collapseGo, hc]

theorem collapseGo_slug_append {w : Str} (v : Str) (hw : ∀ c ∈ w, isSlugChar c = true) :
    collapseGo false (w ++ v) = w ++ collapseGo false v := by
  induction w with
  | nil => rfl
  | cons c cs ih =>
    rw [List.cons_append, collapseGo_cons_slug false _ (hw c (by simp)),
      ih (fun d hd => hw d (by simp [hd]))]
    rfl

theorem collapseGo_true_dropWhile (s : Str) :
    collapseGo true s = collapseGo true (s.dropWhile (fun d => !isSlugChar d)) := by
  induction s with
  | nil => rfl
  | cons c cs ih =>
    by_cases hc : isSlugChar c = true
    · rw [List.dropWhile_cons_of_neg (by simp [hc])]
    · rw [collapseGo_cons_nonslug_true cs (by simpa using hc),
        List.dropWhile_cons_of_pos (by simp [hc]), ih]

end Ch17Full

theorem intercalate_single (sep : Str) (x : Str) : List.intercalate sep [x] = x := by
  simp [List.intercalate]

theorem intercalate_cons₂ (sep : Str) (x : Str) {L : List Str} (h : L ≠ []) :
    List.intercalate sep (x :: L) = x ++ sep ++ List.intercalate sep L := by
  cases L with
  | nil => exact absurd rfl h
  | cons y L' => simp [List.intercalate, List.intersperse]

theorem alnumChunks_nil : alnumChunks [] = [] := by
  simp [alnumChunks]

/-- The collapse-and-trim slug of convert_ch17_full.py equals hyphen-joining the
maximal alphanumeric words. -/
theorem strip_collapse_eq_chunks (s : Str) :
    pyStripSet ['-'] (Ch17Full.collapseRuns s) = List.intercalate ['-'] (alnumChunks s) := by
  induction s using alnumChunks.induct with
  | case1 => rw [alnumChunks_nil]; rfl
  | case2 c cs hc ih =>
    have hW : ∀ d ∈ cs.takeWhile isSlugChar, isSlugChar d = true :=
      fun d hd => List.mem_takeWhile_imp hd
    have hsplit : cs.takeWhile isSlugChar ++ cs.dropWhile isSlugChar = cs :=
      List.takeWhile_append_dropWhile (p := isSlugChar) (l := cs)
    have hhead : ∀ e ∈ c :: cs.takeWhile isSlugChar, (['-'] : Str).contains e = false := by
      intro e he
      have hslug : isSlugChar e = true := by
        rcases List.mem_cons.mp he with rfl | he'
        · exact hc
        · exact hW e he'
      have := slug_ne_dash hslug
      simp [this]
    unfold Ch17Full.collapseRuns at ih ⊢
    rw [Ch17Full.collapseGo_cons_slug false cs hc]
    conv_lhs => rw [← hsplit]
    rw [Ch17Full.collapseGo_slug_append _ hW]
    rw [alnumChunks]
    simp only [hc, if_true]
    cases hR : cs.dropWhile isSlugChar with
    | nil =>
      rw [Ch17Full.collapseGo_nil, List.append_nil, alnumChunks_nil, intercalate_single]
      show pyStripSet ['-'] (c :: cs.takeWhile isSlugChar) = _
      unfold pyStripSet
      rw [lstrip_cons_notMem _ (hhead c (by simp)), rstrip_eq_self hhead]
    | cons d ds =>
      have hd : isSlugChar d = false := dropWhile_head_false hR
      rw [hR] at ih
      rw [Ch17Full.collapseGo_cons_nonslug_false ds hd,
        Ch17Full.collapseGo_true_dropWhile ds]
      rw [Ch17Full.collapseGo_cons_nonslug_false ds hd,
        Ch17Full.collapseGo_true_dropWhile ds] at ih
      rw [alnumChunks]
      simp only [hd, Bool.false_eq_true, if_false]
      cases hR2 : ds.dropWhile (fun e => !isSlugChar e) with
      | nil =>
        rw [hR2] at ih
        rw [Ch17Full.collapseGo_nil, alnumChunks_nil, intercalate_single]
        show pyStripSet ['-'] ((c :: cs.takeWhile isSlugChar) ++ ['-']) = _
        unfold pyStripSet
        rw [List.cons_append, lstrip_cons_notMem _ (hhead c (by simp)), ← List.cons_append]
        rw [rstrip_append_all_mem _ (by intro x hx; simp at hx; simp [hx]),
          rstrip_eq_self hhead]
      | cons e es =>
        have he : isSlugChar e = true := by
          have := dropWhile_head_false hR2
          simpa using this
        rw [hR2] at ih
        rw [Ch17Full.collapseGo_cons_slug true es he] at ih ⊢
        set X : Str := e :: Ch17Full.collapseGo false es with hX
        have hXhead : (['-'] : Str).contains e = false := by
          have := slug_ne_dash he
          simp [this]
        have hACh : alnumChunks (d :: ds) = alnumChunks (e :: es) := by
          rw [alnumChunks]
          simp only [hd, Bool.false_eq_true, if_false]
          rw [hR2]
        rw [hACh] at ih
        have hih : rstripSet ['-'] X = List.intercalate ['-'] (alnumChunks (e :: es)) := by
          have h1 : pyStripSet ['-'] ('-' :: X) = rstripSet ['-'] X := by
            unfold pyStripSet
            rw [lstrip_cons_mem _ (by simp), lstrip_cons_notMem _ hXhead]
          rw [← h1]
          exact ih
        have hXne : rstripSet ['-'] X ≠ [] := rstrip_ne_nil (by simp [hX]) hXhead
        have hchne : alnumChunks (e :: es) ≠ [] := by
          rw [alnumChunks]
          simp [he]
        show pyStripSet ['-'] ((c :: cs.takeWhile isSlugChar) ++ '-' :: X) = _
        unfold pyStripSet
        rw [List.cons_append, lstrip_cons_notMem _ (hhead c (by simp)), ← List.cons_append]
        rw [show ((c :: cs.takeWhile isSlugChar) ++ '-' :: X : Str) =
          ((c :: cs.takeWhile isSlugChar) ++ ['-']) ++ X from by simp]
        rw [rstrip_append_of_ne _ hXne, hih, intercalate_cons₂ _ _ hchne]
  | case3 c cs hc ih =>
    have hc' : isSlugChar c = false := by simpa using hc
    unfold Ch17Full.collapseRuns at ih ⊢
    rw [Ch17Full.collapseGo_cons_nonslug_false cs hc',
      Ch17Full.collapseGo_true_dropWhile cs]
    rw [alnumChunks]
    simp only [hc', Bool.false_eq_true, if_false]
    cases hR : cs.dropWhile (fun d => !isSlugChar d) with
    | nil =>
      rw [hR] at ih
      rw [Ch17Full.collapseGo_nil, alnumChunks_nil]
      show pyStripSet ['-'] ['-'] = _
      unfold pyStripSet
      rw [lstrip_cons_mem _ (by simp)]
      rfl
    | cons e es =>
      have he : isSlugChar e = true := by
        have := dropWhile_head_false hR
        simpa using this
      rw [hR] at ih
      rw [Ch17Full.collapseGo_cons_slug true es he]
      rw [Ch17Full.collapseGo_cons_slug false es he] at ih
      have hXhead : (['-'] : Str).contains e = false := by
        have := slug_ne_dash he
        simp [this]
      rw [← ih]
      unfold pyStripSet
      rw [lstrip_cons_mem _ (by simp), lstrip_cons_notMem _ hXhead]

/-- C6 counterexample: the claim "this identical derivation is applied at every
site that synthesizes an id" is false.  For the title "A.B",
convert_ch24_enhanced.py derives section id `sec-a.b` (it only lower-cases,
maps spaces to hyphens and deletes `:` and `,`), while the run-collapsing rule
used by convert_ch17_full.py (and stated by the spec) yields `sec-` + `a-b`. -/
theorem C6_counterexample :
    Ch24Enhanced.section_id (chars "A.B") = chars "sec-a.b" ∧
    chars "sec-" ++ Ch17Full.slug_core (chars "A.B") = chars "sec-a-b" ∧
    Ch24Enhanced.section_id (chars "A.B") ≠
      chars "sec-" ++ Ch17Full.slug_core (chars "A.B") := by
  refine ⟨by decide, by decide, by decide⟩

/-- C6 (amended): convert_ch17_full.py's id derivation (lower-case, collapse
runs of non-alphanumerics to a single hyphen, trim hyphens, with literal
fallback `example` for an empty title) implements the spec's fallback rule;
convert_ch24_enhanced.py's section/subsection ids use a different rule, so the
derivation is not identical at every site (see the counterexample). -/
theorem C6_ch17full_matches_spec (t : Str) :
    Ch17Full.ex_id t = if t = [] then chars "example" else specFallbackId t := by
  by_cases ht : t = []
  · subst ht
    simp [Ch17Full.ex_id]
  · rw [Ch17Full.ex_id, if_neg ht, if_neg ht]
    unfold Ch17Full.slug_core specFallbackId
    exact strip_collapse_eq_chunks (pyLower t)

/-! ### Scanner primitives for the concrete regular expressions -/

/-- Maximal prefix of characters satisfying `p`, plus the remainder. -/
def takeRun (p : Char → Bool) : Str → Str × Str
  | [] => ([], [])
  | c :: cs =>
    if p c then
      let r := takeRun p cs
      (c :: r.1, r.2)
    else ([], c :: cs)

/-- Python `pat in s` (substring containment). -/
def containsSub (pat : Str) : Str → Bool
  | [] => pat.isEmpty
  | c :: cs => pat.isPrefixOf (c :: cs) || containsSub pat cs

/-- One `re.sub` pass for a pattern of the shape
`pre  (char-class)+  post` (with `post` possibly empty), replacing each match
of the group `run` by `mk run`; scanning is left to right, restarting one
character later on failure, and continuing after the consumed text on success.
The class never contains the first character of `post`, so the greedy/lazy
distinction of the concrete regexes is immaterial. -/
def subRunGo (pre : Str) (cls : Char → Bool) (post : Str) (mk : Str → Str) :
    Nat → Str → Str
  | _, [] => []
  | 0, s => s
  | fuel + 1, c :: cs =>
    if pre.isPrefixOf (c :: cs) then
      let after := (c :: cs).drop pre.length
      let r := takeRun cls after
      if r.1 ≠ [] ∧ post.isPrefixOf r.2 = true then
        mk r.1 ++ subRunGo pre cls post mk fuel (r.2.drop post.length)
      else
        c :: subRunGo pre cls post mk fuel cs
    else
      c :: subRunGo pre cls post mk fuel cs

def subRun (pre : Str) (cls : Char → Bool) (post : Str) (mk : Str → Str) (s : Str) : Str :=
  subRunGo pre cls post mk s.length s

/-- Python `s.split(pat, 1)`: the text before the first occurrence and the text
after it (`(s, [])` when the pattern does not occur). -/
def splitOnceGo (p : Char) (ps : Str) : Nat → Str → Str × Str
  | _, [] => ([], [])
  | 0, s => (s, [])
  | fuel + 1, c :: cs =>
    if (p :: ps).isPrefixOf (c :: cs) then ([], cs.drop ps.length)
    else
      let r := splitOnceGo p ps fuel cs
      (c :: r.1, r.2)

def splitOnce (p : Char) (ps : Str) (s : Str) : Str × Str := splitOnceGo p ps s.length s

/-- `pyReplace` for a pattern given as one list (must be non-empty). -/
def pyReplaceStr (pat rep s : Str) : Str :=
  match pat with
  | [] => s
  | p :: ps => pyReplace p ps rep s

def natDigits (n : Nat) : Str := Nat.toDigits 10 n

def indent2 (n : Nat) : Str := List.replicate (2 * n) ' '

example : takeRun (fun c => !(c = '$')) (chars "ab$cd") = (chars "ab", chars "$cd") := by decide

example : containsSub (chars ":::") (chars "a ::: b") = true := by decide

example : splitOnce '#' (chars "# Solution") (chars "ab## Solutioncd") =
    (chars "ab", chars "cd") := by decide

/-! ## convert_ch17_complete.py : convert_inline and handle_guided_practice -/

namespace Ch17Complete

/-- Regex class `[a-zA-Z0-9\-]` of the cross-reference patterns. -/
def isRefChar (c : Char) : Bool :=
  ('a' ≤ c && c ≤ 'z') || ('A' ≤ c && c ≤ 'Z') || ('0' ≤ c && c ≤ '9') || c = '-'

/-- Regex class `[a-zA-Z0-9\-:]` of the citation pattern. -/
def isCiteChar (c : Char) : Bool := isRefChar c || c = ':'

/-- `re.sub(r'\$([^\$]+)\$', store_math, text)`: store each inline math span
and leave a numbered `__MATH<k>__` placeholder. -/
def storeMathGo : Nat → Nat → Str → Str × List Str
  | _, _, [] => ([], [])
  | 0, _, s => (s, [])
  | fuel + 1, k, c :: cs =>
    if c = '$' then
      let tr := takeRun (fun d => !(d = '$')) cs
      match tr.2 with
      | '$' :: rest =>
        if tr.1 = [] then
          let r := storeMathGo fuel k cs
          ('$' :: r.1, r.2)
        else
          let r := storeMathGo fuel (k + 1) rest
          ((chars "__MATH" ++ natDigits k ++ chars "__") ++ r.1, tr.1 :: r.2)
      | _ =>
        let r := storeMathGo fuel k cs
        ('$' :: r.1, r.2)
    else
      let r := storeMathGo fuel k cs
      (c :: r.1, r.2)

def storeMath (s : Str) : Str × List Str := storeMathGo s.length 0 s

/-- `re.sub(r'`([^`]+)`', store_code, text)` with `__CODE<k>__` placeholders. -/
def storeCodeGo : Nat → Nat → Str → Str × List Str
  | _, _, [] => ([], [])
  | 0, _, s => (s, [])
  | fuel + 1, k, c :: cs =>
    if c = '`' then
      let tr := takeRun (fun d => !(d = '`')) cs
      match tr.2 with
      | '`' :: rest =>
        if tr.1 = [] then
          let r := storeCodeGo fuel k cs
          ('`' :: r.1, r.2)
        else
          let r := storeCodeGo fuel (k + 1) rest
          ((chars "__CODE" ++ natDigits k ++ chars "__") ++ r.1, tr.1 :: r.2)
      | _ =>
        let r := storeCodeGo fuel k cs
        ('`' :: r.1, r.2)
    else
      let r := storeCodeGo fuel k cs
      (c :: r.1, r.2)

def storeCode (s : Str) : Str × List Str := storeCodeGo s.length 0 s

/-- The restore loops: `text.replace(f"__TAG{i}__", wrap(stored[i]))` for each
stored span in order. -/
def restoreGo (tag : Str) (wrap : Str → Str) : Nat → List Str → Str → Str
  | _, [], text => text
  | i, x :: xs, text =>
    restoreGo tag wrap (i + 1) xs
      (pyReplaceStr (chars "__" ++ tag ++ natDigits i ++ chars "__") (wrap x) text)

def restoreList (tag : Str) (wrap : Str → Str) (stored : List Str) (text : Str) : Str :=
  restoreGo tag wrap 0 stored text

/-- `re.sub(r'\*\*([^\*]+)\*\*', r'<alert>\1</alert>', text)`. -/
def boldSub (t : Str) : Str :=
  subRun (chars "**") (fun d => !(d = '*')) (chars "**")
    (fun r => chars "<alert>" ++ r ++ chars "</alert>") t

/-- `re.sub(r'\*([^\*]+)\*', r'<em>\1</em>', text)`. -/
def italSub (t : Str) : Str :=
  subRun ['*'] (fun d => !(d = '*')) ['*']
    (fun r => chars "<em>" ++ r ++ chars "</em>") t

/-- `re.sub(r'@fig-([a-zA-Z0-9\-]+)', r'<xref ref="fig-\1" />', text)`. -/
def figSub (t : Str) : Str :=
  subRun (chars "@fig-") isRefChar []
    (fun r => chars "<xref ref=\x22fig-" ++ r ++ chars "\x22 />") t

def tblSub (t : Str) : Str :=
  subRun (chars "@tbl-") isRefChar []
    (fun r => chars "<xref ref=\x22tbl-" ++ r ++ chars "\x22 />") t

def secSub (t : Str) : Str :=
  subRun (chars "@sec-") isRefChar []
    (fun r => chars "<xref ref=\x22sec-" ++ r ++ chars "\x22 />") t

/-- `re.sub(r'\[Chapter -@sec-([a-zA-Z0-9\-]+)\]', r'<xref ref="sec-\1" />', text)`. -/
def chapSub (t : Str) : Str :=
  subRun (chars "[Chapter -@sec-") isRefChar (chars "]")
    (fun r => chars "<xref ref=\x22sec-" ++ r ++ chars "\x22 />") t

/-- `re.sub(r'\[@([a-zA-Z0-9\-:]+)\]', r'<xref ref="biblio-\1" />', text)`. -/
def citeSub (t : Str) : Str :=
  subRun (chars "[@") isCiteChar (chars "]")
    (fun r => chars "<xref ref=\x22biblio-" ++ r ++ chars "\x22 />") t

/-- `convert_inline` of convert_ch17_complete.py (lines 27-69): store math and
code spans behind placeholders, rewrite bold and italic, restore code and math,
then rewrite cross-references and citations. -/
def convert_inline (text : Str) : Str :=
  if text = [] then text
  else
    let m := storeMath text
    let c := storeCode m.1
    let t1 := boldSub c.1
    let t2 := italSub t1
    let t3 := restoreList (chars "CODE") (fun code => chars "<c>" ++ code ++ chars "</c>") c.2 t2
    let t4 := restoreList (chars "MATH") (fun mt => chars "<m>" ++ mt ++ chars "</m>") m.2 t3
    citeSub (chapSub (secSub (tblSub (figSub t4))))

end Ch17Complete

example : Ch17Complete.convert_inline (chars "a **b** `x<y` and $e=mc^2$") =
    chars "a <alert>b</alert> <c>x<y</c> and <m>e=mc^2</m>" := by decide

example : Ch17Complete.convert_inline (chars "see @fig-one and [@Doe:2020]") =
    chars "see <xref ref=\x22fig-one\x22 /> and <xref ref=\x22biblio-Doe:2020\x22 />" := by decide

namespace Ch17Complete

/-- Prepend a character to the first part of a split result. -/
def consHead (c : Char) : List Str → List Str
  | [] => [[c]]
  | p :: ps => (c :: p) :: ps

/-- `re.split(r'::: \{\.callout-note[^\}]*\}', block_text)`. -/
def calloutSplitGo : Nat → Str → List Str
  | _, [] => [[]]
  | 0, s => [s]
  | fuel + 1, c :: cs =>
    if (chars "::: \x7b.callout-note").isPrefixOf (c :: cs) then
      let after := (c :: cs).drop (chars "::: \x7b.callout-note").length
      let tr := takeRun (fun d => !(d = '\x7d')) after
      match tr.2 with
      | '}' :: rest => [] :: calloutSplitGo fuel rest
      | _ => consHead c (calloutSplitGo fuel cs)
    else
      consHead c (calloutSplitGo fuel cs)

def calloutSplit (s : Str) : List Str := calloutSplitGo s.length s

/-- `re.sub(r':::$', '', solution)`: remove a final `:::` (the argument is
already stripped, so `$` can only match at the very end). -/
def subColonsEnd (s : Str) : Str :=
  if (chars ":::").isSuffixOf s then s.take (s.length - 3) else s

/-- `self.add_line(line)`: two spaces of indentation per level. -/
def add_line (ind : Nat) (l : Str) : Str := indent2 ind ++ l

/-- The collection loop of `handle_guided_practice` (lines 286-291): gather
lines until one whose stripped form is `:::` and whose predecessor does not
contain `:::` (the `i > 0` guard always holds, since the loop starts one past
the block opener).  Returns the collected block and the remaining lines,
beginning with the terminating `:::` when one was found. -/
def gpCollect (prev : Str) : List Str → List Str × List Str
  | [] => ([], [])
  | l :: ls =>
    if pyStrip l = chars ":::" ∧ containsSub (chars ":::") prev = false then
      ([], l :: ls)
    else
      let r := gpCollect l ls
      (l :: r.1, r.2)

/-- `handle_guided_practice` of convert_ch17_complete.py (lines 281-328),
with the surrounding object's indentation level passed explicitly.  Returns
the emitted lines and the resume index `i + 1` (with `i` the index at which
the collection loop stopped). -/
def handle_guided_practice (lines : List Str) (i : Nat) (ind : Nat) : List Str × Nat :=
  let rem := lines.drop (i + 1)
  let col := gpCollect (lines.getD i []) rem
  let block_lines := col.1
  let iBreak := lines.length - col.2.length
  let block_text := List.intercalate ['\n'] block_lines
  let sp :=
    if containsSub (chars "::: \x7b.callout-note") block_text then
      let parts := calloutSplit block_text
      let statement := pyStrip (parts.getD 0 [])
      let solution :=
        if parts.length > 1 then
          let sol_part := parts.getD 1 []
          if containsSub (chars "## Solution") sol_part then
            pyStrip (subColonsEnd (pyStrip (splitOnce '#' (chars "# Solution") sol_part).2))
          else []
        else []
      (statement, solution)
    else (pyStrip block_text, ([] : Str))
  let statement := convert_inline sp.1
  let solution := sp.2
  let out1 := [add_line ind (chars "<exercise>"), add_line ind (chars "  <statement>"),
    add_line ind (chars "    <p>"), add_line ind (chars "      " ++ statement),
    add_line ind (chars "    </p>"), add_line ind (chars "  </statement>")]
  let out2 :=
    if solution ≠ [] then
      let solc := convert_inline solution
      [add_line ind (chars "  <solution>"), add_line ind (chars "    <p>"),
        add_line ind (chars "      " ++ solc), add_line ind (chars "    </p>"),
        add_line ind (chars "  </solution>")]
    else []
  (out1 ++ out2 ++ [add_line ind (chars "</exercise>")], iBreak + 1)

/-- The canonical nested-solution guided-practice block: a statement, a
solution wrapped in a callout-note sub-scope using the same `:::` close
marker, the inner close, and the outer close. -/
def gpExample : List Str :=
  [chars "::: \x7b.guidedpractice\x7d",
   chars "statement",
   [],
   chars "::: \x7b.callout-note collapse=\x22true\x22\x7d",
   [],
   chars "## Solution",
   [],
   chars "solution body",
   chars ":::",
   chars ":::"]

end Ch17Complete

example : (Ch17Complete.handle_guided_practice Ch17Complete.gpExample 0 1).2 = 9 := by decide

/-! ### Claim C1 -/

/-- C1 counterexample: in `handle_guided_practice`, the collection loop stops
at the first `:::` line whose predecessor contains no `:::` — for a nested
solution sub-scope this is the *inner* close.  If every close token popped
exactly one frame and the inner close had to be consumed before the outer
close popped the SpecialBlock frame, the handler would consume both closes and
resume at index 10; it actually resumes at index 9, leaving the outer close
unconsumed. -/
theorem C1_counterexample :
    (Ch17Complete.handle_guided_practice Ch17Complete.gpExample 0 1).2 ≠ 10 := by decide

/-- C1 (amended): on the canonical nested-solution block, the single inner
close token finalizes the whole exercise at once — the handler emits the
complete `<exercise>` element (statement and solution) and resumes at index 9,
on the outer `:::`, which the surrounding loop then skips as stray text; there
is no nesting counter. -/
theorem C1_single_close_pops_block :
    Ch17Complete.handle_guided_practice Ch17Complete.gpExample 0 1 =
      ([chars "  <exercise>", chars "    <statement>", chars "      <p>",
        chars "        statement", chars "      </p>", chars "    </statement>",
        chars "    <solution>", chars "      <p>", chars "        solution body",
        chars "      </p>", chars "    </solution>", chars "  </exercise>"], 9) := by decide

/-! ### Claim C5 -/

theorem takeRun_all_stop {p : Char → Bool} {m : Str} (d : Char) (rest : Str)
    (hm : ∀ c ∈ m, p c = true) (hd : p d = false) :
    takeRun p (m ++ d :: rest) = (m, d :: rest) := by
  induction m with
  | nil => simp [takeRun, hd]
  | cons c cs ih =>
    rw [List.cons_append]
    simp [takeRun, hm c (by simp), ih (fun e he => hm e (by simp [he]))]

namespace Ch17Complete

theorem storeMathGo_nil (fl k : Nat) : storeMathGo fl k [] = ([], []) := by
  cases fl <;> rfl

theorem storeMathGo_dollar (fl k : Nat) (cs : Str) :
    storeMathGo (fl + 1) k ('$' :: cs) =
      (let tr := takeRun (fun d => !(d = '$')) cs
       match tr.2 with
       | '$' :: rest =>
         if tr.1 = [] then
           let r := storeMathGo fl k cs
           ('$' :: r.1, r.2)
         else
           let r := storeMathGo fl (k + 1) rest
           ((chars "__MATH" ++ natDigits k ++ chars "__") ++ r.1, tr.1 :: r.2)
       | _ =>
         let r := storeMathGo fl k cs
         ('$' :: r.1, r.2)) := by
  rfl

theorem storeMath_wrap (m : Str) (hne : m ≠ []) (hd : ∀ c ∈ m, ¬ c = '$') :
    storeMath ('$' :: m ++ ['$']) = (chars "__MATH0__", [m]) := by
  have h2 : ∀ c ∈ m, (!(c = '$') : Bool) = true := by
    intro c hc
    simpa using hd c hc
  have h3 : takeRun (fun d => !(d = '$')) (m ++ ['$']) = (m, ['$']) :=
    takeRun_all_stop '$' [] h2 (by decide)
  show storeMathGo ('$' :: m ++ ['$']).length 0 ('$' :: m ++ ['$']) = _
  rw [List.cons_append]
  have hlen : ('$' :: (m ++ ['$']) : Str).length = m.length + 1 + 1 := by simp
  rw [hlen, storeMathGo_dollar]
  simp only [h3, hne, storeMathGo_nil, if_neg hne, List.append_nil]
  refine Prod.ext ?_ ?_
  · show chars "__MATH" ++ natDigits 0 ++ chars "__" = chars "__MATH0__"
    decide
  · rfl

end Ch17Complete

/-! ### Claim C5: placeholder protection in the inline converter -/

theorem restoreList_nil (tag : Str) (wrap : Str → Str) (text : Str) :
    Ch17Complete.restoreList tag wrap [] text = text := rfl

theorem pyReplaceStr_self (rep : Str) {pat : Str} (hp : pat ≠ []) :
    pyReplaceStr pat rep pat = rep := by
  cases pat with
  | nil => exact absurd rfl hp
  | cons p ps =>
    show pyReplace p ps rep (p :: ps) = rep
    have h := pyReplace_pat_match p ps rep []
    simpa [pyReplace_nil] using h

theorem restoreMATH_single (wrap : Str → Str) (m : Str) :
    Ch17Complete.restoreList (chars "MATH") wrap [m] (chars "__MATH0__") = wrap m := by
  show pyReplaceStr (chars "__" ++ chars "MATH" ++ natDigits 0 ++ chars "__") (wrap m)
      (chars "__MATH0__") = wrap m
  have hpat : (chars "__" ++ chars "MATH" ++ natDigits 0 ++ chars "__" : Str) =
      chars "__MATH0__" := by decide
  rw [hpat]
  exact pyReplaceStr_self (wrap m) (by decide)

/-- C5 counterexample: the claim says the rewriting steps never rewrite any
character inside a protected math span and that protected spans are restored
verbatim.  In convert_ch17_complete.py the math spans are restored *before*
the cross-reference and citation substitutions run, so the content of the
math span `$@fig-a$` is rewritten: the output is
`<m><xref ref="fig-a" /></m>`, not `<m>@fig-a</m>`. -/
theorem C5_counterexample :
    Ch17Complete.convert_inline (chars "$@fig-a$") ≠ chars "<m>@fig-a</m>" ∧
    Ch17Complete.convert_inline (chars "$@fig-a$") =
      chars "<m><xref ref=\x22fig-a\x22 /></m>" := by
  refine ⟨by decide, by decide⟩

/-- C5 (amended): in convert_ch17_complete.py, a dollar-delimited math span is
protected from the strong/emphasis and code rewriting (it is stored behind a
placeholder and put back verbatim by the restore step), but the
cross-reference and citation substitutions run *after* the restore, so they
are applied to the span content: the result for `$m$` is exactly the
reference/citation pipeline applied to `<m>` ++ m ++ `</m>`. -/
theorem C5_refs_rewrite_inside_restored_math (m : Str) (hne : m ≠ [])
    (hd : ∀ c ∈ m, ¬ c = '$') :
    Ch17Complete.convert_inline ('$' :: m ++ ['$']) =
      Ch17Complete.citeSub (Ch17Complete.chapSub (Ch17Complete.secSub
        (Ch17Complete.tblSub (Ch17Complete.figSub
          (chars "<m>" ++ m ++ chars "</m>"))))) := by
  have hMath := Ch17Complete.storeMath_wrap m hne hd
  have hne2 : ('$' :: m ++ ['$'] : Str) ≠ [] := by simp
  have hCode : Ch17Complete.storeCode (chars "__MATH0__") =
      (chars "__MATH0__", ([] : List Str)) := by decide
  have hBold : Ch17Complete.boldSub (chars "__MATH0__") = chars "__MATH0__" := by decide
  have hItal : Ch17Complete.italSub (chars "__MATH0__") = chars "__MATH0__" := by decide
  simp only [Ch17Complete.convert_inline, if_neg hne2, hMath, hCode, hBold, hItal,
    restoreList_nil, restoreMATH_single]

theorem C5_refs_rewrite_inside_restored_math_witness :
    (chars "@fig-a" : Str) ≠ [] ∧ (∀ c ∈ (chars "@fig-a" : Str), ¬ c = '$') ∧
    Ch17Complete.convert_inline ('$' :: chars "@fig-a" ++ ['$']) =
      Ch17Complete.citeSub (Ch17Complete.chapSub (Ch17Complete.secSub
        (Ch17Complete.tblSub (Ch17Complete.figSub
          (chars "<m>" ++ chars "@fig-a" ++ chars "</m>"))))) :=
  ⟨by decide, by decide,
    C5_refs_rewrite_inside_restored_math (chars "@fig-a") (by decide) (by decide)⟩

/-! ## convert_ch19.py : the whole conversion pipeline

Lines are modelled as `readlines()` delivers them: every element of the input
document carries its trailing newline (except possibly the last).  The main
loop right-strips its current line but all inner scans read the raw lines. -/

namespace Ch19

/-- `escape_xml` of convert_ch19.py (lines 10-15): three `str.replace` passes. -/
def escape_xml (t : Str) : Str :=
  pyReplaceStr (chars ">") (chars "&gt;")
    (pyReplaceStr (chars "<") (chars "&lt;")
      (pyReplaceStr (chars "&") (chars "&amp;") t))

/-- The regex class `[a-zA-Z0-9_-]` of the cross-reference patterns. -/
def isRefChar19 (c : Char) : Bool :=
  ('a' ≤ c && c ≤ 'z') || ('A' ≤ c && c ≤ 'Z') || ('0' ≤ c && c ≤ '9') || c = '_' || c = '-'

/-- `convert_cross_refs` (lines 46-56): four `re.sub` passes. -/
def convert_cross_refs (t : Str) : Str :=
  let t1 := subRun (chars "@fig-") isRefChar19 []
    (fun r => chars "<xref ref=\x22fig-" ++ r ++ chars "\x22/>") t
  let t2 := subRun (chars "@sec-") isRefChar19 []
    (fun r => chars "<xref ref=\x22sec-" ++ r ++ chars "\x22/>") t1
  let t3 := subRun (chars "@tbl-") isRefChar19 []
    (fun r => chars "<xref ref=\x22tbl-" ++ r ++ chars "\x22/>") t2
  subRun (chars "Chapter -@sec-") isRefChar19 []
    (fun r => chars "<xref ref=\x22sec-" ++ r ++ chars "\x22/>") t3

/-- `convert_index` (lines 58-61). -/
def convert_index (t : Str) : Str :=
  subRun (chars "\\index\x7b") (fun c => !(c = '\x7d')) (chars "\x7d")
    (fun r => chars "<idx>" ++ r ++ chars "</idx>") t

/-- `convert_display_math` (lines 28-36): the captured content is stripped. -/
def convert_display_math (t : Str) : Str :=
  subRun (chars "$$") (fun c => !(c = '$')) (chars "$$")
    (fun r => chars "<me>" ++ pyStrip r ++ chars "</me>") t

/-- `convert_inline_math` (lines 17-26): content kept verbatim. -/
def convert_inline_math (t : Str) : Str :=
  subRun (chars "$") (fun c => !(c = '$')) (chars "$")
    (fun r => chars "<m>" ++ r ++ chars "</m>") t

/-- `convert_bold_italic` (lines 38-44). -/
def convert_bold_italic (t : Str) : Str :=
  let t1 := subRun (chars "**") (fun c => !(c = '*')) (chars "**")
    (fun r => chars "<alert>" ++ r ++ chars "</alert>") t
  subRun (chars "*") (fun c => !(c = '*')) (chars "*")
    (fun r => chars "<em>" ++ r ++ chars "</em>") t1

/-- `process_line` (lines 63-71). -/
def process_line (l : Str) : Str :=
  convert_bold_italic (convert_inline_math (convert_display_math
    (convert_index (convert_cross_refs l))))

/-- Python `s.split(pat)[1]`: the text between the first and the second
occurrence of the pattern (everything after the first occurrence when there is
no second one). -/
def pySplitGet1 (p : Char) (ps : Str) (s : Str) : Str :=
  (splitOnce p ps (splitOnce p ps s).2).1

/-- The caption-continuation loop at lines 260-262: collect the raw lines
starting with an indented `#|` marker, with `#|` deleted and the rest
stripped. -/
def capTake : List Str → List Str × List Str
  | [] => ([], [])
  | l :: ls =>
    if (chars "#|  ").isPrefixOf l || (chars "#|   ").isPrefixOf l then
      let r := capTake ls
      (pyStrip (pyReplaceStr (chars "#|") [] l) :: r.1, r.2)
    else ([], l :: ls)

/-- The metadata scan at lines 252-266 (the `j` loop): reads the `#|` option
lines following the opening fence and updates label, caption and width.  After
the caption-continuation loop the scan advances one extra line (`j += 1`),
exactly as the source does. -/
def metaScan : Nat → List Str → Str × Str × Str → Str × Str × Str
  | _, [], st => st
  | 0, _, st => st
  | fuel + 1, l :: ls, (lab, cap, wid) =>
    if (chars "#|").isPrefixOf l then
      let lab2 := if containsSub (chars "label:") l then pyStrip (pySplitGet1 'l' (chars "abel:") l) else lab
      if containsSub (chars "fig-cap:") l then
        let ct := capTake ls
        let cap2 := List.intercalate (chars " ") ct.1
        let wid2 := if containsSub (chars "out-width:") l then pyStrip (pySplitGet1 'o' (chars "ut-width:") l) else wid
        metaScan fuel (ct.2.drop 1) (lab2, cap2, wid2)
      else
        let wid2 := if containsSub (chars "out-width:") l then pyStrip (pySplitGet1 'o' (chars "ut-width:") l) else wid
        metaScan fuel ls (lab2, cap, wid2)
    else (lab, cap, wid)

/-- The code-collection loop at lines 274-277: gather raw lines until a line
starting with a fence, dropping blank lines. -/
def collectCode : List Str → List Str × List Str
  | [] => ([], [])
  | l :: ls =>
    if (chars "```").isPrefixOf l then ([], l :: ls)
    else
      let r := collectCode ls
      (if pyStrip l = [] then r.1 else l :: r.1, r.2)

/-- A quote character of the `include_graphics` regex class. -/
def igQuote (c : Char) : Bool := c = '\x22' || c = '\x27'

/-- `re.search(r'include_graphics\(["\x5c\x27]([^"\x5c\x27]+)["\x5c\x27]\)', line)`:
first match's group, scanning left to right. -/
def igSearchGo : Nat → Str → Option Str
  | _, [] => none
  | 0, _ => none
  | fuel + 1, c :: cs =>
    if (chars "include_graphics(").isPrefixOf (c :: cs) then
      match (c :: cs).drop (chars "include_graphics(").length with
      | q :: rest =>
        if igQuote q then
          let r := takeRun (fun d => !(igQuote d)) rest
          match r.2 with
          | q2 :: ')' :: _ =>
            if r.1 ≠ [] ∧ igQuote q2 = true then some r.1 else igSearchGo fuel cs
          | _ => igSearchGo fuel cs
        else igSearchGo fuel cs
      | [] => igSearchGo fuel cs
    else igSearchGo fuel cs

def igSearch (l : Str) : Option Str := igSearchGo l.length l

/-- The loop at lines 290-294: the last successful `include_graphics` match
wins. -/
def figSourceFold (code_lines : List Str) (init : Str) : Str :=
  code_lines.foldl (fun acc l =>
    if containsSub (chars "include_graphics") l then
      match igSearch l with
      | some g => g
      | none => acc
    else acc) init

/-- The exercise emission loop at lines 219-235: statement lines, then on the
`SOLUTION_START` marker the statement is closed and a solution opened, then
the remaining lines; blank lines are dropped, the rest become `<p>` elements. -/
def ex_body : Bool → List Str → List Str
  | inSol, [] =>
    (if inSol then [chars "        </solution>\n"] else [chars "        </statement>\n"]) ++
      [chars "      </exercise>\n"]
  | inSol, l :: ls =>
    if l = chars "SOLUTION_START" then
      chars "        </statement>\n" :: chars "        <solution>\n" :: ex_body true ls
    else if pyStrip l = [] then ex_body inSol ls
    else (chars "          <p>" ++ process_line l ++ chars "</p>\n") :: ex_body inSol ls

/-- Lines 216-235: the full `<exercise>` element emitted for a closed block. -/
def emit_exercise (ex : List Str) : List Str :=
  chars "\n      <exercise>\n" :: chars "        <statement>\n" :: ex_body false ex

/-- The mutable state of `main`'s while loop (lines 92-105). -/
structure St where
  out : List Str
  sl : Nat
  in_intro : Bool
  in_ex : Bool
  exLines : List Str
  figLabel : Str
  figCap : Str
  figWidth : Str

/-- The while loop of `main` (lines 107-347), one constructor case per source
branch, in source order.  The `Exercises` arm (lines 148-156) returns
immediately, modelling `break`.  The result is the output list and the final
`section_level`, which the epilogue still uses. -/
def loop : Nat → List Str → Nat → St → List Str × Nat
  | _, [], _, st => (st.out, st.sl)
  | 0, _, _, st => (st.out, st.sl)
  | fuel + 1, raw :: rest, i, st =>
    let line := pyRstrip raw
    if i < 5 ∧ ((chars "---").isPrefixOf line = true ∨ containsSub (chars "output:") line = true ∨
        containsSub (chars "editor_options") line = true ∨
        containsSub (chars "chunk_output_type") line = true) then
      loop fuel rest (i + 1) st
    else if containsSub (chars "```\x7br\x7d") line = true ∧ i < 30 then
      let r1 := rest.dropWhile (fun l => !(containsSub (chars "```") l))
      loop fuel (r1.drop 1) (i + (rest.length - r1.length) + 2) st
    else if (chars "# Inference for a single mean").isPrefixOf line then
      loop fuel rest (i + 1) st
    else if (chars "## ").isPrefixOf line = true ∧ ¬ (chars "### ").isPrefixOf line = true then
      let out1 := if st.in_intro then st.out ++ [chars "  <introduction>\n"] else st.out
      let out2 := if st.sl = 2 then out1 ++ [chars "    </subsection>\n", chars "  </section>\n"]
        else if st.sl = 1 then out1 ++ [chars "  </section>\n"] else out1
      if containsSub (chars "Chapter review") line then
        loop fuel rest (i + 1)
          { st with out := out2 ++ [chars "\n  <section xml:id=\x22sec-chp19-review\x22>\n",
              chars "    <title>Chapter review</title>\n"], sl := 1, in_intro := false }
      else if containsSub (chars "Exercises") line = true ∧
          containsSub (chars "#sec-chp19-exercises") line = true then
        let out3 := if 0 < st.sl then
            (if st.sl = 2 then out2 ++ [chars "    </subsection>\n"] else out2) ++
              [chars "  </section>\n"]
          else out2
        (out3 ++ [chars "\n  <xi:include href=\x22../exercises/ch19-exercises.ptx\x22 xmlns:xi=\x22http://www.w3.org/2001/XInclude\x22/>\n",
          chars "</chapter>\n"], st.sl)
      else if containsSub (chars "Bootstrap confidence interval for a mean") line then
        loop fuel rest (i + 1)
          { st with out := out2 ++ [chars "  </introduction>\n\n",
              chars "  <section xml:id=\x22sec-boot1mean\x22>\n",
              chars "    <title>Bootstrap confidence interval for a mean</title>\n"],
                    sl := 1, in_intro := false }
      else if containsSub (chars "Mathematical model for a mean") line then
        let out3 := if st.sl = 2 then out2 ++ [chars "    </subsection>\n"] else out2
        loop fuel rest (i + 1)
          { st with out := out3 ++ [chars "  </section>\n\n",
              chars "  <section xml:id=\x22sec-one-mean-math\x22>\n",
              chars "    <title>Mathematical model for a mean</title>\n"],
                    sl := 1, in_intro := false }
      else
        let sid := if containsSub (chars "\x7b#") line then
            rstripSet (chars "\x7d") (pySplitGet1 '\x7b' (chars "#") line) else []
        let title := pyStrip ((splitOnce '\x7b' (chars "#") (pyReplaceStr (chars "## ") [] line)).1)
        let out3 := if sid ≠ [] then
            out2 ++ [chars "\n  <section xml:id=\x22" ++ sid ++ chars "\x22>\n"]
          else out2 ++ [chars "\n  <section>\n"]
        loop fuel rest (i + 1)
          { st with out := out3 ++ [chars "    <title>" ++ title ++ chars "</title>\n"],
                    sl := 1, in_intro := false }
    else if (chars "### ").isPrefixOf line then
      let out1 := if st.sl = 2 then st.out ++ [chars "    </subsection>\n"] else st.out
      let sid := if containsSub (chars "\x7b#") line then
          rstripSet (chars "\x7d") (pySplitGet1 '\x7b' (chars "#") line) else []
      let title := pyStrip ((splitOnce '\x7b' (chars "#") (pyReplaceStr (chars "### ") [] line)).1)
      let out2 := if sid ≠ [] then
          out1 ++ [chars "\n    <subsection xml:id=\x22" ++ sid ++ chars "\x22>\n"]
        else out1 ++ [chars "\n    <subsection>\n"]
      loop fuel rest (i + 1)
        { st with out := out2 ++ [chars "      <title>" ++ title ++ chars "</title>\n"], sl := 2 }
    else if ((chars "::: \x7b.").isPrefixOf line = true ∧
        containsSub (chars "workedexample") line = true) ∨
        containsSub (chars "guidedpractice") line = true then
      loop fuel rest (i + 1) { st with in_ex := true, exLines := [] }
    else if line = chars "## Solution" ∨ ((chars "::: \x7b").isPrefixOf line = true ∧
        containsSub (chars "solution") (pyLower line) = true) then
      loop fuel rest (i + 1)
        (if st.in_ex then { st with exLines := st.exLines ++ [chars "SOLUTION_START"] } else st)
    else if st.in_ex = true ∧ line = chars ":::" then
      loop fuel rest (i + 1)
        { st with out := st.out ++ emit_exercise st.exLines, in_ex := false, exLines := [] }
    else if st.in_ex then
      loop fuel rest (i + 1) { st with exLines := st.exLines ++ [line] }
    else if (chars "```\x7br\x7d").isPrefixOf line = true ∨ (chars "```\x7br ").isPrefixOf line = true then
      let meta := metaScan rest.length rest (st.figLabel, st.figCap, st.figWidth)
      let r1 := rest.dropWhile (fun l => (chars "#|").isPrefixOf l)
      let cc := collectCode r1
      let rest3 := match cc.2 with
        | l :: ls => if (chars "```").isPrefixOf l then ls else l :: ls
        | [] => []
      let lab2 := meta.1
      let cap2 := meta.2.1
      let wid2 := meta.2.2
      let iNext := i + 1 + (rest.length - rest3.length)
      if (chars "fig-").isPrefixOf lab2 then
        let src0 := pyReplaceStr (chars "fig-") [] lab2 ++ chars ".png"
        let src := if containsSub (chars "include_graphics") (List.intercalate (chars "\n") cc.1)
          then figSourceFold cc.1 src0 else src0
        let capOut := if cap2 ≠ [] then
            [chars "        <caption>" ++ process_line cap2 ++ chars "</caption>\n"] else []
        loop fuel rest3 iNext
          { st with out := st.out ++ [chars "\n      <figure xml:id=\x22" ++ lab2 ++ chars "\x22>\n"] ++
              capOut ++ [chars "        <image source=\x22" ++ src ++ chars "\x22 width=\x22" ++ wid2 ++ chars "\x22/>\n",
                chars "      </figure>\n"],
                    figLabel := [], figCap := [], figWidth := chars "70%" }
      else if cc.1 ≠ [] then
        let capOut := if cap2 ≠ [] then
            [chars "        <caption>" ++ process_line cap2 ++ chars "</caption>\n"] else []
        loop fuel rest3 iNext
          { st with out := st.out ++ [chars "\n      <listing>\n"] ++ capOut ++
              [chars "        <program language=\x22r\x22><input>\n"] ++
              cc.1.map (fun l => escape_xml l ++ chars "\n") ++
              [chars "        </input></program>\n", chars "      </listing>\n"],
                    figLabel := lab2, figCap := cap2, figWidth := wid2 }
      else
        loop fuel rest3 iNext { st with figLabel := lab2, figCap := cap2, figWidth := wid2 }
    else if containsSub (chars "::: \x7b.chapterintro") line then
      loop fuel rest (i + 1)
        (if st.in_intro then st
         else { st with out := st.out ++ [chars "  <introduction>\n"], in_intro := true })
    else if line = chars ":::" ∧ st.in_intro = true ∧ 20 < i then
      loop fuel rest (i + 1) st
    else if pyStrip line ≠ [] ∧ ¬ (chars "#|").isPrefixOf line = true ∧
        ¬ (chars "```").isPrefixOf line = true then
      let p := process_line line
      let pl := if st.in_intro then chars "    <p>" ++ p ++ chars "</p>\n"
        else if st.sl = 2 then chars "      <p>" ++ p ++ chars "</p>\n"
        else if st.sl = 1 then chars "    <p>" ++ p ++ chars "</p>\n"
        else chars "  <p>" ++ p ++ chars "</p>\n"
      loop fuel rest (i + 1) { st with out := st.out ++ [pl] }
    else
      loop fuel rest (i + 1) st

/-- Lines 85-89: the fixed header. -/
def header : List Str :=
  [chars "<?xml version=\x221.0\x22 encoding=\x22UTF-8\x22 ?>\n", chars "\n",
   chars "<chapter xml:id=\x22ch19-inference-single-mean\x22>\n",
   chars "  <title>Inference for a single mean</title>\n", chars "\n"]

/-- Python `l[-n:]`. -/
def lastN (n : Nat) (l : List Str) : List Str := l.drop (l.length - n)

/-- Concatenation of a list of strings (`''.join`). -/
def joinL : List Str → Str
  | [] => []
  | x :: xs => x ++ joinL xs

/-- The epilogue of `main` (lines 349-358): close open sections, then append
`</chapter>` unless it already occurs in the last five output lines. -/
def finalize (r : List Str × Nat) : List Str :=
  let out2 := if r.2 = 2 then r.1 ++ [chars "    </subsection>\n", chars "  </section>\n"]
    else if r.2 = 1 then r.1 ++ [chars "  </section>\n"] else r.1
  if containsSub (chars "</chapter>") (joinL (lastN 5 out2)) then out2
  else out2 ++ [chars "</chapter>\n"]

/-- `main` of convert_ch19.py as a function from the document lines (with
their trailing newlines, as `readlines()` yields them) to the output lines. -/
def main (doc : List Str) : List Str :=
  finalize (loop doc.length doc 0 ⟨header, 0, true, false, [], [], [], chars "70%"⟩)

end Ch19

/-! ### Claim C2: statement precedes solution in the emitted exercise -/

namespace Ch19

/-- The `<p>` element emitted for one non-blank exercise line. -/
def pLine (l : Str) : Str := chars "          <p>" ++ process_line l ++ chars "</p>\n"

/-- The non-blank lines of a collected segment, as emitted. -/
def pLines (X : List Str) : List Str :=
  (X.filter (fun l => !decide (pyStrip l = []))).map pLine

theorem ex_body_no_marker (inSol : Bool) (B : List Str)
    (hB : chars "SOLUTION_START" ∉ B) :
    ex_body inSol B = pLines B ++
      (if inSol then [chars "        </solution>\n"] else [chars "        </statement>\n"]) ++
      [chars "      </exercise>\n"] := by
  induction B with
  | nil => simp [ex_body, pLines]
  | cons l ls ih =>
    have hl : l ≠ chars "SOLUTION_START" := by
      intro h
      exact hB (by simp [h])
    have hls : chars "SOLUTION_START" ∉ ls := fun h => hB (by simp [h])
    show ex_body inSol (l :: ls) = _
    rw [ex_body]
    rw [if_neg hl]
    by_cases hblank : pyStrip l = []
    · rw [if_pos hblank, ih hls]
      simp [pLines, hblank]
    · rw [if_neg hblank, ih hls]
      simp [pLines, pLine, hblank]

end Ch19

theorem ch19_ex_body_split (A B : List Str)
    (hA : chars "SOLUTION_START" ∉ A) (hB : chars "SOLUTION_START" ∉ B) :
    Ch19.ex_body false (A ++ chars "SOLUTION_START" :: B) =
      Ch19.pLines A ++
        [chars "        </statement>\n", chars "        <solution>\n"] ++
        Ch19.pLines B ++
        [chars "        </solution>\n", chars "      </exercise>\n"] := by
  induction A with
  | nil =>
    rw [List.nil_append, Ch19.ex_body, if_pos rfl, Ch19.ex_body_no_marker true B hB]
    simp [Ch19.pLines]
  | cons l ls ih =>
    have hl : l ≠ chars "SOLUTION_START" := by
      intro h
      exact hA (by simp [h])
    have hls : chars "SOLUTION_START" ∉ ls := fun h => hA (by simp [h])
    rw [List.cons_append, Ch19.ex_body, if_neg hl]
    by_cases hblank : pyStrip l = []
    · rw [if_pos hblank, ih hls]
      simp [Ch19.pLines, hblank]
    · rw [if_neg hblank, ih hls]
      simp [Ch19.pLines, Ch19.pLine, hblank]

/-- C2: in convert_ch19.py's exercise emission (lines 213-240), for a
SpecialBlock whose collected lines consist of statement lines, the
`SOLUTION_START` marker, and solution lines, the emitted element is the
statement segment (every non-blank statement line as a `<p>`), then the
closing of the statement and the opening of the solution, then the solution
segment, then the closers: statement content is fully emitted before any
solution content and no line of one segment appears in the other. -/
theorem C2_statement_before_solution (A B : List Str)
    (hA : chars "SOLUTION_START" ∉ A) (hB : chars "SOLUTION_START" ∉ B) :
    Ch19.emit_exercise (A ++ chars "SOLUTION_START" :: B) =
      [chars "\n      <exercise>\n", chars "        <statement>\n"] ++
        Ch19.pLines A ++
        [chars "        </statement>\n", chars "        <solution>\n"] ++
        Ch19.pLines B ++
        [chars "        </solution>\n", chars "      </exercise>\n"] := by
  show chars "\n      <exercise>\n" :: chars "        <statement>\n" ::
      Ch19.ex_body false (A ++ chars "SOLUTION_START" :: B) = _
  rw [ch19_ex_body_split A B hA hB]
  simp

theorem C2_statement_before_solution_witness :
    (chars "SOLUTION_START" ∉ [chars "statement one", chars ""]) ∧
    (chars "SOLUTION_START" ∉ [chars "solution body"]) ∧
    Ch19.emit_exercise ([chars "statement one", chars ""] ++
        chars "SOLUTION_START" :: [chars "solution body"]) =
      [chars "\n      <exercise>\n", chars "        <statement>\n"] ++
        Ch19.pLines [chars "statement one", chars ""] ++
        [chars "        </statement>\n", chars "        <solution>\n"] ++
        Ch19.pLines [chars "solution body"] ++
        [chars "        </solution>\n", chars "      </exercise>\n"] :=
  ⟨by decide, by decide,
    C2_statement_before_solution [chars "statement one", chars ""] [chars "solution body"]
      (by decide) (by decide)⟩

/-! ### Claim C3: behaviour at stray closes and unclosed blocks -/

theorem joinL_append (a b : List Str) : Ch19.joinL (a ++ b) = Ch19.joinL a ++ Ch19.joinL b := by
  induction a with
  | nil => rfl
  | cons x xs ih => simp [Ch19.joinL, ih]

theorem containsSub_append_right (pat s t : Str) (h : containsSub pat t = true) :
    containsSub pat (s ++ t) = true := by
  induction s with
  | nil => simpa using h
  | cons c cs ih => simp [containsSub, ih]

theorem ch19_finalize_closes (r : List Str × Nat) :
    containsSub (chars "</chapter>") (Ch19.joinL (Ch19.lastN 5 (Ch19.finalize r))) = true := by
  unfold Ch19.finalize
  set out2 := if r.2 = 2 then r.1 ++ [chars "    </subsection>\n", chars "  </section>\n"]
    else if r.2 = 1 then r.1 ++ [chars "  </section>\n"] else r.1 with hout2
  by_cases h : containsSub (chars "</chapter>") (Ch19.joinL (Ch19.lastN 5 out2)) = true
  · rw [if_pos h]
    exact h
  · rw [if_neg h]
    have hk : (out2.length + 1) - 5 ≤ out2.length := by omega
    have hdrop : Ch19.lastN 5 (out2 ++ [chars "</chapter>\n"]) =
        out2.drop ((out2.length + 1) - 5) ++ [chars "</chapter>\n"] := by
      unfold Ch19.lastN
      rw [List.length_append]
      exact List.drop_append_of_le_length hk
    rw [hdrop, joinL_append]
    refine containsSub_append_right _ _ _ ?_
    decide

/-- A document whose only close token `:::` arrives while no block is open. -/
def strayDoc : List Str :=
  [chars "# Inference for a single mean\n", chars "hello\n", chars ":::\n"]

/-- A document whose worked-example block is never closed before end of input. -/
def unclosedDoc : List Str :=
  [chars "# Inference for a single mean\n", chars "::: \x7b.workedexample\x7d\n",
   chars "lost statement\n"]

/-- C3 counterexample: convert_ch19.py has no error machinery at all.  A close
token with only the document open is emitted verbatim as the paragraph
`<p>:::</p>` and the conversion completes normally, and a block left open at
end of input is silently discarded (its collected content never reaches the
output) while a closed `</chapter>` is still emitted — there is no
StructuralError, nothing is reported, and complete-looking output is produced
in both cases. -/
theorem C3_counterexample :
    Ch19.main strayDoc =
      [chars "<?xml version=\x221.0\x22 encoding=\x22UTF-8\x22 ?>\n", chars "\n",
       chars "<chapter xml:id=\x22ch19-inference-single-mean\x22>\n",
       chars "  <title>Inference for a single mean</title>\n", chars "\n",
       chars "    <p>hello</p>\n", chars "    <p>:::</p>\n", chars "</chapter>\n"] ∧
    Ch19.main unclosedDoc =
      [chars "<?xml version=\x221.0\x22 encoding=\x22UTF-8\x22 ?>\n", chars "\n",
       chars "<chapter xml:id=\x22ch19-inference-single-mean\x22>\n",
       chars "  <title>Inference for a single mean</title>\n", chars "\n",
       chars "</chapter>\n"] := by
  refine ⟨by decide, by decide⟩

/-- C3 (amended): for every input document, convert_ch19.py completes and
produces output whose last five lines contain `</chapter>`: there is no
failure channel — stray closes and unclosed blocks never raise a
StructuralError and never suppress the output. -/
theorem C3_always_complete_output (doc : List Str) :
    containsSub (chars "</chapter>") (Ch19.joinL (Ch19.lastN 5 (Ch19.main doc))) = true :=
  ch19_finalize_closes _

/-! ### Claim C4: duplicate identifiers -/

/-- A document in which two sections declare the same id `sec-a`. -/
def dupDoc : List Str :=
  [chars "# Inference for a single mean\n", chars "## Alpha \x7b#sec-a\x7d\n",
   chars "one\n", chars "## Beta \x7b#sec-a\x7d\n", chars "two\n"]

/-- C4 counterexample: two declarations of the same id `sec-a` do not fail.
convert_ch19.py emits both `<section xml:id="sec-a">` openers, reports
nothing, and completes the conversion with a closed chapter. -/
theorem C4_counterexample :
    (Ch19.main dupDoc).count (chars "\n  <section xml:id=\x22sec-a\x22>\n") = 2 ∧
    containsSub (chars "</chapter>") (Ch19.joinL (Ch19.lastN 5 (Ch19.main dupDoc))) = true := by
  refine ⟨by decide, by decide⟩

/-- C4 (amended): convert_ch19.py keeps no table of declared identifiers; on a
document with two sections claiming `sec-a` the full output is produced, with
both duplicate declarations present and no DuplicateId error or halt. -/
theorem C4_duplicates_both_emitted :
    Ch19.main dupDoc =
      [chars "<?xml version=\x221.0\x22 encoding=\x22UTF-8\x22 ?>\n", chars "\n",
       chars "<chapter xml:id=\x22ch19-inference-single-mean\x22>\n",
       chars "  <title>Inference for a single mean</title>\n", chars "\n",
       chars "  <introduction>\n",
       chars "\n  <section xml:id=\x22sec-a\x22>\n", chars "    <title>Alpha</title>\n",
       chars "    <p>one</p>\n", chars "  </section>\n",
       chars "\n  <section xml:id=\x22sec-a\x22>\n", chars "    <title>Beta</title>\n",
       chars "    <p>two</p>\n", chars "  </section>\n", chars "</chapter>\n"] := by
  decide

/-! ### Claim C8: code listings drop blank lines -/

theorem collectCode_spec (body rest : List Str)
    (hb : ∀ l ∈ body, ((chars "```").isPrefixOf l) = false) :
    Ch19.collectCode (body ++ (chars "```\n") :: rest) =
      (body.filter (fun l => !decide (pyStrip l = [])), (chars "```\n") :: rest) := by
  induction body with
  | nil =>
    rw [List.nil_append, Ch19.collectCode]
    rw [if_pos (by decide)]
    simp
  | cons l ls ih =>
    have hl : ((chars "```").isPrefixOf l) = false := hb l (by simp)
    have hls : ∀ x ∈ ls, ((chars "```").isPrefixOf x) = false := fun x hx => hb x (by simp [hx])
    rw [List.cons_append, Ch19.collectCode, hl]
    simp only [Bool.false_eq_true, if_false, ih hls]
    by_cases hblank : pyStrip l = []
    · simp [hblank]
    · simp [hblank]

/-- A document whose code chunk (a listing, label `tbl-y`) has a blank line
between two code lines. -/
def blankDoc : List Str :=
  List.replicate 30 (chars "\n") ++
    [chars "```\x7br\x7d\n", chars "#| label: tbl-y\n", chars "x <- 1\n", chars "\n",
     chars "y <- 2\n", chars "```\n"]

set_option maxRecDepth 8000 in
/-- C8 counterexample: the chunk body `x <- 1`, blank, `y <- 2` is not
reproduced verbatim.  The blank line is dropped from the emitted listing
(and each kept line is emitted with its original newline plus an extra one):
the `<program>` body in the output is exactly the two escaped non-blank
lines. -/
theorem C8_counterexample :
    Ch19.main blankDoc =
      [chars "<?xml version=\x221.0\x22 encoding=\x22UTF-8\x22 ?>\n", chars "\n",
       chars "<chapter xml:id=\x22ch19-inference-single-mean\x22>\n",
       chars "  <title>Inference for a single mean</title>\n", chars "\n",
       chars "\n      <listing>\n",
       chars "        <program language=\x22r\x22><input>\n",
       chars "x &lt;- 1\n\n", chars "y &lt;- 2\n\n",
       chars "        </input></program>\n", chars "      </listing>\n",
       chars "</chapter>\n"] := by
  decide

/-- C8 (amended): in convert_ch19.py the code-collection loop (lines 274-277)
keeps only the non-blank lines of a chunk body: for any body with no inner
fence line, the collected `code_lines` — the lines the listing branch then
emits as `escape_xml(line) + '\n'` — are exactly the body lines whose
`strip()` is non-empty, in order; every blank line is dropped. -/
theorem C8_listing_body (body rest : List Str)
    (hb : ∀ l ∈ body, ((chars "```").isPrefixOf l) = false) :
    (Ch19.collectCode (body ++ (chars "```\n") :: rest)).1 =
      body.filter (fun l => !decide (pyStrip l = [])) := by
  rw [collectCode_spec body rest hb]

theorem C8_listing_body_witness :
    (∀ l ∈ [chars "x <- 1\n", chars "\n", chars "y <- 2\n"],
        ((chars "```").isPrefixOf l) = false) ∧
    (Ch19.collectCode ([chars "x <- 1\n", chars "\n", chars "y <- 2\n"] ++
        (chars "```\n") :: [])).1 =
      [chars "x <- 1\n", chars "\n", chars "y <- 2\n"].filter
        (fun l => !decide (pyStrip l = [])) :=
  ⟨by decide, C8_listing_body [chars "x <- 1\n", chars "\n", chars "y <- 2\n"] [] (by decide)⟩

/-! ### Claim C7: figure image paths -/

/-- A document whose figure chunk has label `fig-x` (placed after thirty blank
lines so that it escapes the setup-chunk skip at lines 116-122). -/
def figDoc : List Str :=
  List.replicate 30 (chars "\n") ++
    [chars "```\x7br\x7d\n", chars "#| label: fig-x\n", chars "plot(x)\n", chars "```\n"]

set_option maxRecDepth 8000 in
/-- C7 counterexample: for the figure chunk labelled `fig-x`, convert_ch19.py
derives the image source by deleting the `fig-` prefix and appending `.png`
(lines 286-287): the emitted path is `x.png`, not `fig-x-1.png`, and no
panel-indexed path appears anywhere in the output. -/
theorem C7_counterexample :
    Ch19.main figDoc =
      [chars "<?xml version=\x221.0\x22 encoding=\x22UTF-8\x22 ?>\n", chars "\n",
       chars "<chapter xml:id=\x22ch19-inference-single-mean\x22>\n",
       chars "  <title>Inference for a single mean</title>\n", chars "\n",
       chars "\n      <figure xml:id=\x22fig-x\x22>\n",
       chars "        <image source=\x22x.png\x22 width=\x2270%\x22/>\n",
       chars "      </figure>\n", chars "</chapter>\n"] ∧
    containsSub (chars "fig-x-1.png") (Ch19.joinL (Ch19.main figDoc)) = false := by
  refine ⟨by decide, by decide⟩

namespace Ch24Enhanced

/-- ASCII `\w` (the regex word class, restricted to the script's ASCII
content). -/
def isWordChar (c : Char) : Bool :=
  ('a' ≤ c && c ≤ 'z') || ('A' ≤ c && c ≤ 'Z') || ('0' ≤ c && c ≤ '9') || c = '_'

def isWsChar (c : Char) : Bool := wsSet.contains c

/-- The group of `re.sub(r'\$\$\s*([^\$]+?)\s*\$\$', ...)`: the run between
the double dollars with its whitespace margins eaten by the greedy `\s*`
anchors; an all-whitespace run backtracks to a single character. -/
def dispCore (r : Str) : Str :=
  if pyStrip r = [] then (r.reverse.take 1).reverse else pyStrip r

/-- Display math of `convert_text_formatting` (line 58). -/
def dispGo : Nat → Str → Str
  | _, [] => []
  | 0, s => s
  | fuel + 1, c :: cs =>
    if (chars "$$").isPrefixOf (c :: cs) then
      let r := takeRun (fun d => !(d = '$')) ((c :: cs).drop 2)
      if r.1 ≠ [] ∧ (chars "$$").isPrefixOf r.2 = true then
        chars "<me>" ++ dispCore r.1 ++ chars "</me>" ++ dispGo fuel (r.2.drop 2)
      else c :: dispGo fuel cs
    else c :: dispGo fuel cs

def dispSub (t : Str) : Str := dispGo t.length t

/-- Inline math (line 61): `re.sub(r'\$([^\$\n]+?)\$', r'<m>\1</m>', text)`. -/
def mSub (t : Str) : Str :=
  subRun (chars "$") (fun d => !(d = '$') && !(d = '\n')) (chars "$")
    (fun r => chars "<m>" ++ r ++ chars "</m>") t

/-- Bold (line 64). -/
def boldSub24 (t : Str) : Str :=
  subRun (chars "**") (fun d => !(d = '*') && !(d = '\n')) (chars "**")
    (fun r => chars "<alert>" ++ r ++ chars "</alert>") t

/-- The lookbehind/lookahead class `[*\w]` of the italic pattern. -/
def italBoundary : Option Char → Bool
  | none => true
  | some p => !(p = '*' || isWordChar p)

/-- Italic (line 67): `re.sub(r'(?<![*\w])\*([^\*\n]+?)\*(?![*\w])', ...)`,
scanning with the previous original character for the lookbehind. -/
def italGo : Option Char → Nat → Str → Str
  | _, _, [] => []
  | _, 0, s => s
  | prev, fuel + 1, c :: cs =>
    if c = '*' ∧ italBoundary prev = true then
      let r := takeRun (fun d => !(d = '*') && !(d = '\n')) cs
      match r.2 with
      | '*' :: rest =>
        if r.1 ≠ [] ∧ italBoundary rest.head? = true then
          chars "<em>" ++ r.1 ++ chars "</em>" ++ italGo (some '*') fuel rest
        else c :: italGo (some c) fuel cs
      | _ => c :: italGo (some c) fuel cs
    else c :: italGo (some c) fuel cs

def italSub24 (t : Str) : Str := italGo none t.length t

/-- Inline code (line 70). -/
def cSub (t : Str) : Str :=
  subRun (chars "`") (fun d => !(d = '`')) (chars "`")
    (fun r => chars "<c>" ++ r ++ chars "</c>") t

/-- `convert_text_formatting` of convert_ch24_enhanced.py (lines 54-72). -/
def convert_text_formatting (t : Str) : Str :=
  cSub (italSub24 (boldSub24 (mSub (dispSub t))))

/-- The class `[a-zA-Z0-9\-_]` of the `@kind-name` reference pattern. -/
def xrefClass (c : Char) : Bool :=
  ('a' ≤ c && c ≤ 'z') || ('A' ≤ c && c ≤ 'Z') || ('0' ≤ c && c ≤ '9') || c = '-' || c = '_'

def atRun (kind : Str) (after : Str) : Option (Str × Str × Str) :=
  let r := takeRun xrefClass after
  if r.1 = [] then none else some (kind, r.1, r.2)

/-- One attempt of `@(fig|tbl|sec|eq)-([a-zA-Z0-9\-_]+)` at the current
position. -/
def atMatch (s : Str) : Option (Str × Str × Str) :=
  if (chars "@fig-").isPrefixOf s then atRun (chars "fig") (s.drop 5)
  else if (chars "@tbl-").isPrefixOf s then atRun (chars "tbl") (s.drop 5)
  else if (chars "@sec-").isPrefixOf s then atRun (chars "sec") (s.drop 5)
  else if (chars "@eq-").isPrefixOf s then atRun (chars "eq") (s.drop 4)
  else none

def atRefGo : Nat → Str → Str
  | _, [] => []
  | 0, s => s
  | fuel + 1, c :: cs =>
    match atMatch (c :: cs) with
    | some (kind, run, rest) =>
      chars "<xref ref=\x22" ++ kind ++ chars "-" ++ run ++ chars "\x22 />" ++ atRefGo fuel rest
    | none => c :: atRefGo fuel cs

def atRefSub (t : Str) : Str := atRefGo t.length t

/-- Citations (line 80): `re.sub(r'\[@([^\]]+?)\]', r'<xref ref="\1" />', text)`. -/
def citeSub24 (t : Str) : Str :=
  subRun (chars "[@") (fun d => !(d = ']')) (chars "]")
    (fun r => chars "<xref ref=\x22" ++ r ++ chars "\x22 />") t

/-- The `\[Chapter\s+-@sec-([^\]]+)\]` / `\[Section\s+-@sec-([^\]]+)\]`
patterns (lines 83-84), parameterised by the word. -/
def wordRefGo (word : Str) : Nat → Str → Str
  | _, [] => []
  | 0, s => s
  | fuel + 1, c :: cs =>
    if (chars "[" ++ word).isPrefixOf (c :: cs) then
      let w := takeRun isWsChar ((c :: cs).drop (word.length + 1))
      if w.1 ≠ [] ∧ (chars "-@sec-").isPrefixOf w.2 = true then
        let r := takeRun (fun d => !(d = ']')) (w.2.drop 6)
        match r.2 with
        | ']' :: rest =>
          if r.1 ≠ [] then
            chars "<xref ref=\x22sec-" ++ r.1 ++ chars "\x22 />" ++ wordRefGo word fuel rest
          else c :: wordRefGo word fuel cs
        | _ => c :: wordRefGo word fuel cs
      else c :: wordRefGo word fuel cs
    else c :: wordRefGo word fuel cs

def wordRefSub (word : Str) (t : Str) : Str := wordRefGo word t.length t

/-- `convert_cross_references` of convert_ch24_enhanced.py (lines 74-86). -/
def convert_cross_references (t : Str) : Str :=
  wordRefSub (chars "Section") (wordRefSub (chars "Chapter") (citeSub24 (atRefSub t)))

/-- `unescape_for_tags` (lines 33-52): sixteen `str.replace` passes. -/
def unescape_for_tags (t : Str) : Str :=
  pyReplaceStr (chars "&lt;/url&gt;") (chars "</url>")
    (pyReplaceStr (chars "/&gt;") (chars "/>")
      (pyReplaceStr (chars "&lt;url href=") (chars "<url href=")
        (pyReplaceStr (chars "&lt;xref ref=") (chars "<xref ref=")
          (pyReplaceStr (chars "&lt;/md&gt;") (chars "</md>")
            (pyReplaceStr (chars "&lt;md&gt;") (chars "<md>")
              (pyReplaceStr (chars "&lt;/me&gt;") (chars "</me>")
                (pyReplaceStr (chars "&lt;me&gt;") (chars "<me>")
                  (pyReplaceStr (chars "&lt;/m&gt;") (chars "</m>")
                    (pyReplaceStr (chars "&lt;m&gt;") (chars "<m>")
                      (pyReplaceStr (chars "&lt;/c&gt;") (chars "</c>")
                        (pyReplaceStr (chars "&lt;c&gt;") (chars "<c>")
                          (pyReplaceStr (chars "&lt;/em&gt;") (chars "</em>")
                            (pyReplaceStr (chars "&lt;em&gt;") (chars "<em>")
                              (pyReplaceStr (chars "&lt;/alert&gt;") (chars "</alert>")
                                (pyReplaceStr (chars "&lt;alert&gt;") (chars "<alert>") t)))))))))))))))

/-- The figure caption text of `process_code_block` (lines 179-182). -/
def figure_caption_text (caption_lines : List Str) : Str :=
  unescape_for_tags (convert_cross_references (convert_text_formatting
    (List.intercalate (chars " ") caption_lines)))

/-- The `<image>` line of one subfigure (line 203). -/
def imgLine (label : Str) (i : Nat) : Str :=
  chars "      <image source=\x22images/" ++ label ++ chars "-" ++ natDigits i ++
    chars ".png\x22 width=\x2290%\x22 />\n"

/-- The subfigure loop of `process_code_block` (lines 198-204):
`enumerate(subcap_lines, 1)`. -/
def subfigs (label : Str) : Nat → List Str → List Str
  | _, [] => []
  | i, s :: ss =>
    [chars "    <figure xml:id=\x22" ++ label ++ chars "-" ++ natDigits i ++ chars "\x22>\n",
     chars "      <caption>" ++ pyStrip (pyStripSet (chars "- ") s) ++ chars "</caption>\n",
     imgLine label i,
     chars "    </figure>\n"] ++ subfigs label (i + 1) ss

/-- The figure emission of `process_code_block` (lines 177-213), reached when
`has_figure` holds (non-empty label and caption lines): the single-figure
branch or the `sidebyside` subfigure branch. -/
def figure_block (label : Str) (caption_lines subcap_lines : List Str)
    (layout_ncol : Nat) : List Str :=
  let cap_text := figure_caption_text caption_lines
  if subcap_lines ≠ [] then
    let widths := if layout_ncol = 4 then chars "22% 22% 22% 22%"
      else if layout_ncol = 3 then chars "30% 30% 30%" else chars "45% 45%"
    [chars "<figure xml:id=\x22" ++ label ++ chars "\x22>\n",
     chars "  <caption>" ++ cap_text ++ chars "</caption>\n",
     chars "  <sidebyside widths=\x22" ++ widths ++ chars "\x22>\n"] ++
      subfigs label 1 subcap_lines ++
      [chars "  </sidebyside>\n", chars "</figure>\n\n"]
  else
    [chars "<figure xml:id=\x22" ++ label ++ chars "\x22>\n",
     chars "  <caption>" ++ cap_text ++ chars "</caption>\n",
     chars "  <image source=\x22images/" ++ label ++ chars "-1.png\x22 width=\x2270%\x22 />\n",
     chars "</figure>\n\n"]

/-- Recognises the `<image ...>` lines of the figure emission (either
indentation), by prefix, without looking at the embedded caption text. -/
def isImgLine (l : Str) : Bool :=
  (chars "  <image source=").isPrefixOf l || (chars "      <image source=").isPrefixOf l

end Ch24Enhanced

theorem isPrefixOf_false_of_take (p c t : Str) (k : Nat) (hkp : k ≤ p.length)
    (hkc : k ≤ c.length) (h : p.take k ≠ c.take k) :
    p.isPrefixOf (c ++ t) = false := by
  by_contra hcon
  rw [Bool.not_eq_false] at hcon
  have hpre : p <+: c ++ t := by
    rw [← List.isPrefixOf_iff_prefix]
    exact hcon
  obtain ⟨r, hr⟩ := hpre
  apply h
  have h2 := congrArg (List.take k) hr
  rw [List.take_append_eq_append_take, List.take_append_eq_append_take] at h2
  have e1 : k - p.length = 0 := by omega
  have e2 : k - c.length = 0 := by omega
  rw [e1, e2] at h2
  simpa using h2

namespace Ch24Enhanced

theorem isImgLine_imgLine (L : Str) (i : Nat) : isImgLine (imgLine L i) = true := by
  unfold isImgLine imgLine
  have h : (chars "      <image source=\x22images/" : Str) =
      chars "      <image source=" ++ chars "\x22images/" := by decide
  rw [h]
  simp only [List.append_assoc]
  rw [isPrefixOf_append_self]
  simp

theorem isImgLine_figopen (L t : Str) :
    isImgLine (chars "<figure xml:id=\x22" ++ L ++ t) = false := by
  unfold isImgLine
  rw [List.append_assoc]
  rw [isPrefixOf_false_of_take _ _ _ 1 (by decide) (by decide) (by decide),
    isPrefixOf_false_of_take _ _ _ 1 (by decide) (by decide) (by decide)]
  rfl

theorem isImgLine_caption (t : Str) :
    isImgLine (chars "  <caption>" ++ t) = false := by
  unfold isImgLine
  rw [isPrefixOf_false_of_take _ _ _ 4 (by decide) (by decide) (by decide),
    isPrefixOf_false_of_take _ _ _ 3 (by decide) (by decide) (by decide)]
  rfl

theorem isImgLine_sbs (t : Str) :
    isImgLine (chars "  <sidebyside widths=\x22" ++ t) = false := by
  unfold isImgLine
  rw [isPrefixOf_false_of_take _ _ _ 4 (by decide) (by decide) (by decide),
    isPrefixOf_false_of_take _ _ _ 3 (by decide) (by decide) (by decide)]
  rfl

theorem isImgLine_subfigopen (L t : Str) :
    isImgLine (chars "    <figure xml:id=\x22" ++ L ++ t) = false := by
  unfold isImgLine
  rw [List.append_assoc]
  rw [isPrefixOf_false_of_take _ _ _ 3 (by decide) (by decide) (by decide),
    isPrefixOf_false_of_take _ _ _ 5 (by decide) (by decide) (by decide)]
  rfl

theorem isImgLine_subcaption (t : Str) :
    isImgLine (chars "      <caption>" ++ t) = false := by
  unfold isImgLine
  rw [isPrefixOf_false_of_take _ _ _ 3 (by decide) (by decide) (by decide),
    isPrefixOf_false_of_take _ _ _ 8 (by decide) (by decide) (by decide)]
  rfl

theorem range_map_succ {α : Type} (f : Nat → α) (n : Nat) :
    (List.range (n + 1)).map f = f 0 :: (List.range n).map (fun k => f (k + 1)) := by
  rw [List.range_succ_eq_map]
  simp [List.map_map, Function.comp]

theorem subfigs_filter (L : Str) (S : List Str) : ∀ i,
    (subfigs L i S).filter isImgLine =
      (List.range S.length).map (fun k => imgLine L (i + k)) := by
  induction S with
  | nil =>
    intro i
    simp [subfigs]
  | cons s ss ih =>
    intro i
    rw [subfigs]
    have hopen : isImgLine (chars "    <figure xml:id=\x22" ++ L ++
        (chars "-" ++ natDigits i ++ chars "\x22>\n")) = false := isImgLine_subfigopen L _
    have hcap : isImgLine (chars "      <caption>" ++
        (pyStrip (pyStripSet (chars "- ") s) ++ chars "</caption>\n")) = false :=
      isImgLine_subcaption _
    have hclose : isImgLine (chars "    </figure>\n") = false := by decide
    rw [List.filter_append]
    simp only [List.filter_cons, List.filter_nil, List.append_assoc] at hopen hcap ⊢
    rw [hopen, hcap, isImgLine_imgLine, hclose, ih (i + 1)]
    simp only [List.length_cons]
    rw [range_map_succ]
    simp only [reduceIte, Bool.false_eq_true, if_false, List.nil_append,
      List.singleton_append, Nat.add_zero, Nat.add_succ, Nat.succ_add]

end Ch24Enhanced

/-- C7 (amended): the panel-indexed derivation L-1.png, L-2.png, ... (under
an `images/` directory) is what convert_ch24_enhanced.py's figure emission
(lines 177-213) produces — a single-panel figure gets exactly
`images/L-1.png` and an n-panel figure gets `images/L-1.png` ... `images/L-n.png` —
but convert_ch19.py derives figure paths differently (see the counterexample),
so the derivation is not uniform across converters, and the module containing
this emission never runs (claim C9). -/
theorem C7_ch24_panel_paths (L : Str) (C S : List Str) (n : Nat) :
    (Ch24Enhanced.figure_block L C S n).filter Ch24Enhanced.isImgLine =
      (if S = [] then
        [chars "  <image source=\x22images/" ++ L ++ chars "-1.png\x22 width=\x2270%\x22 />\n"]
      else (List.range S.length).map (fun k => Ch24Enhanced.imgLine L (k + 1))) := by
  by_cases hS : S = []
  · subst hS
    rw [if_pos rfl]
    unfold Ch24Enhanced.figure_block
    rw [if_neg (by simp)]
    have h1 : Ch24Enhanced.isImgLine (chars "<figure xml:id=\x22" ++ L ++ chars "\x22>\n") = false := by
      have := Ch24Enhanced.isImgLine_figopen L (chars "\x22>\n")
      simpa using this
    have h2 : Ch24Enhanced.isImgLine (chars "  <caption>" ++
        (Ch24Enhanced.figure_caption_text C ++ chars "</caption>\n")) = false :=
      Ch24Enhanced.isImgLine_caption _
    have h3 : Ch24Enhanced.isImgLine (chars "  <image source=\x22images/" ++ L ++
        chars "-1.png\x22 width=\x2270%\x22 />\n") = true := by
      unfold Ch24Enhanced.isImgLine
      have h : (chars "  <image source=\x22images/" : Str) =
          chars "  <image source=" ++ chars "\x22images/" := by decide
      rw [h]
      simp only [List.append_assoc]
      rw [isPrefixOf_append_self]
      simp
    have h4 : Ch24Enhanced.isImgLine (chars "</figure>\n\n") = false := by decide
    simp only [List.filter_cons, List.filter_nil, List.append_assoc] at h1 h2 h3 ⊢
    rw [h1, h2, h3, h4]
    simp only [reduceIte, Bool.false_eq_true, if_false]
  · rw [if_neg hS]
    unfold Ch24Enhanced.figure_block
    rw [if_pos hS]
    have h1 : Ch24Enhanced.isImgLine (chars "<figure xml:id=\x22" ++ L ++ chars "\x22>\n") = false := by
      have := Ch24Enhanced.isImgLine_figopen L (chars "\x22>\n")
      simpa using this
    have h2 : Ch24Enhanced.isImgLine (chars "  <caption>" ++
        (Ch24Enhanced.figure_caption_text C ++ chars "</caption>\n")) = false :=
      Ch24Enhanced.isImgLine_caption _
    have h3 : Ch24Enhanced.isImgLine (chars "  <sidebyside widths=\x22" ++
        ((if n = 4 then chars "22% 22% 22% 22%"
          else if n = 3 then chars "30% 30% 30%" else chars "45% 45%") ++ chars "\x22>\n")) = false :=
      Ch24Enhanced.isImgLine_sbs _
    have h4 : Ch24Enhanced.isImgLine (chars "  </sidebyside>\n") = false := by decide
    have h5 : Ch24Enhanced.isImgLine (chars "</figure>\n\n") = false := by decide
    rw [List.filter_append, List.filter_append]
    simp only [List.filter_cons, List.filter_nil, List.append_assoc] at h1 h2 h3 ⊢
    rw [h1, h2, h3, h4, h5, Ch24Enhanced.subfigs_filter L S 1]
    simp only [reduceIte, Bool.false_eq_true, if_false, List.nil_append, List.append_nil]
    refine List.map_congr_left ?_
    intro k hk
    rw [Nat.add_comm]


/-! ### Claim C9: convert_ch24_enhanced.py does not parse -/

namespace Ch24Enhanced

/-- Line 494 of convert_ch24_enhanced.py, verbatim. -/
def line494 : Str := chars "            # Close the block"

/-- Line 495 of convert_ch24_enhanced.py, verbatim. -/
def line495 : Str :=
  chars "            if in_special_block in [\x27guidedpractice\x27, \x27workedexample\x27]:"

/-- Line 496 of convert_ch24_enhanced.py, verbatim. -/
def line496 : Str :=
  chars "            if in_special_block in [\x27guidedpractice\x27, \x27workedexample\x27]:"

/-- Line 497 of convert_ch24_enhanced.py, verbatim. -/
def line497 : Str := chars "                # Process guided practice or worked example"

/-- The leading-space count of a source line. -/
def indentOf (l : Str) : Nat := (l.takeWhile (fun c => c = ' ')).length

/-- A Python `if` compound-statement header: after the indentation the line
starts with the keyword `if` and ends with a colon. -/
def isIfHeader (l : Str) : Bool :=
  (chars "if ").isPrefixOf (l.dropWhile (fun c => c = ' ')) && l.getLast? = some ':'

end Ch24Enhanced

/-- C9: lines 495 and 496 of convert_ch24_enhanced.py are the same `if` header
at indentation 12, line 496 is code (an `if` header, neither blank nor a
comment) and is not indented deeper than line 495 — so the `if` statement
opened on line 495 has an empty suite.  Python's block grammar requires an
indented suite after a compound-statement header, so the module raises
IndentationError at compile time: `main` never runs, no input line is read
and no output file is written, for every input. -/
theorem C9_never_parses :
    Ch24Enhanced.line495 = Ch24Enhanced.line496 ∧
    Ch24Enhanced.isIfHeader Ch24Enhanced.line495 = true ∧
    Ch24Enhanced.isIfHeader Ch24Enhanced.line496 = true ∧
    Ch24Enhanced.indentOf Ch24Enhanced.line495 = 12 ∧
    Ch24Enhanced.indentOf Ch24Enhanced.line496 ≤ Ch24Enhanced.indentOf Ch24Enhanced.line495 := by
  refine ⟨by decide, by decide, by decide, by decide, by decide⟩
